import Mathlib

/-!
Shallow embedding of the `monthly_page` pipeline of `monthly.py`
(hawkarabdulhaq/watertable): metadata catalog loading and deduplication,
variant-specific metadata projection, left/right merges on the well key,
water-level field resolution, elevation derivation, timestamp binning,
null-drop, groupby aggregation over {mean, min, max}, the long-form
preview table and the wide-form export table with its deterministic
column ordering.

Tables are modelled as a list of column names plus rows of
(column, value) pairs; cell values are nullable numerics, strings or
dates (pandas NaN/NaT is `Val.null`).  Fallible pandas operations
(KeyError on a missing merge key) return `Except`; an uncaught Python
exception is an `Except.error` escaping `monthly_page` itself.
-/

namespace Watertable

/-- A cell value: pandas scalar.  `null` stands for NaN/NaT/None. -/
inductive Val where
  | null : Val
  | num : ℚ → Val
  | str : String → Val
  | date : ℚ → ℚ → ℚ → Val
deriving DecidableEq

/-- A row: association list from column name to cell value. -/
abbrev Row := List (String × Val)

/-- Value of column `c` in row `r` (missing column reads as null). -/
def Row.get : Row → String → Val
  | [], _ => .null
  | p :: r, c => if p.1 = c then p.2 else Row.get r c

/-- Column assignment `df[c] = v` at row level (shadowing update). -/
def Row.set (r : Row) (c : String) (v : Val) : Row := (c, v) :: r

/-- A dataframe: ordered column names and rows. -/
structure DF where
  cols : List String
  rows : List Row
deriving DecidableEq

/-- Column projection `df.loc[:, cs]` (also used for `drop(columns=...)`
rewritten as keeping the complement). -/
def DF.select (df : DF) (cs : List String) : DF :=
  ⟨cs, df.rows.map (fun r => cs.map (fun c => (c, r.get c)))⟩

/-- New derived column appended on the right (`df[c] = f(row)`),
mirroring pandas column assignment. -/
def DF.setColF (df : DF) (c : String) (f : Row → Val) : DF :=
  ⟨if c ∈ df.cols then df.cols else df.cols ++ [c],
   df.rows.map (fun r => r.set c (f r))⟩

/-- pandas merge-key equality: NaN keys never match. -/
def keyMatch : Val → Val → Bool
  | .null, _ => false
  | v, w => decide (v = w)

/-- Rows of `meta` whose `Rendszam` matches key value `k`. -/
def matchesOf (meta : DF) (k : Val) : List Row :=
  meta.rows.filter (fun m => keyMatch k (m.get "Rendszam"))

/-- Row block produced by `merge(..., on="Rendszam")`: each left row is
joined with every matching right row, or kept alone (null padding via
missing-column reads) when nothing matches. -/
def joinRows (dfRows : List Row) (meta : DF) : List Row :=
  dfRows.flatMap (fun r =>
    let ms := matchesOf meta (r.get "Rendszam")
    if ms.isEmpty then [r] else ms.map (fun m => r ++ m))

/-- `df.merge(meta, on="Rendszam", how="left")`. -/
def mergeLeft (df meta : DF) : Except String DF :=
  if "Rendszam" ∈ df.cols ∧ "Rendszam" ∈ meta.cols then
    .ok ⟨df.cols ++ meta.cols.filter (fun c => decide (c ≠ "Rendszam")),
         joinRows df.rows meta⟩
  else .error "KeyError: Rendszam"

/-- `meta.merge(df, on="Rendszam", how="right")`: row set driven by the
right frame, metadata columns leading. -/
def mergeRight (meta df : DF) : Except String DF :=
  if "Rendszam" ∈ meta.cols ∧ "Rendszam" ∈ df.cols then
    .ok ⟨meta.cols ++ df.cols.filter (fun c => decide (c ≠ "Rendszam")),
         joinRows df.rows meta⟩
  else .error "KeyError: Rendszam"

/-- Fuelled kernel of `drop_duplicates(subset=key)`; the fuel only
bounds the recursion depth (structural recursion keeps every
definition kernel-computable). -/
def dedupOnAux (key : String) : ℕ → List Row → List Row
  | 0, _ => []
  | _, [] => []
  | n + 1, r :: rs =>
      r :: dedupOnAux key n (rs.filter (fun r2 => decide (¬ r2.get key = r.get key)))

/-- `drop_duplicates(subset=key)`: first occurrence of each key value
wins (pandas treats equal NaNs as duplicates here). -/
def dedupOn (key : String) (rows : List Row) : List Row :=
  dedupOnAux key rows.length rows

/-- Metadata whitelist for `melyviz_table` (deep wells). -/
def META_COLS_MELY : List String := [
  "Rendszam",
  "VMOEov_EOVx", "VMOEov_EOVy",
  "vmoNev", "VMOEov_Torzsszam",
  "vFaAllomas_AdatgazdaNev",
  "vFaAllomas_RetegvizkutTelepulesNev",
  "vFaAllomas_KapcsSzkmNev",
  "vFaAllomas_AllomasTVA",
  "vFaAllomas_RetegvizkutJellegkodNev",
  "vFaAllomas_RetegvizkutKatSzam",
  "vFaAllomas_FaAllAdatforgTipNev",
  "vFaAllomas_RetegvizkutTipuskodNev",
  "vFaAllomas_RetegvizkutJelzoszam",
  "vFaAllomas_RetegvizkutTerepmag",
  "vFaAllomas_RetegvizkutKutperemmag",
  "vFaAllomas_RetegvizkutKutmelyseg",
  "vFaAllomas_FaAllVKImon",
  "vFaAllomas_FaAllUzemelesNev"]

/-- Metadata whitelist for `talajviz_table` (shallow wells). -/
def META_COLS_TALAJ : List String := [
  "Rendszam",
  "vmoTipusKod", "Torzsszam", "vmoNev",
  "VMOEov_EOVx", "VMOEov_EOVy",
  "vFkAllomas_AdatgazdaNev",
  "vFkAllomas_Nevr", "vFkAllomas_Leiras",
  "vFkAllomas_TalajvizkutTelepulesNev",
  "vFkAllomas_KapcsSzkmNev",
  "vFkAllomas_AllomasTavmBemenetNev",
  "vFkAllomas_AllomasTVA",
  "vFkAllomas_TalajvizkutKatSzam",
  "vFkAllomas_TalajvizkutJelzoszam",
  "vFkAllomas_FkAllAdatforgTipNev",
  "vFkAllomas_TalajvizkutVizminVanE",
  "vFkAllomas_TalajvizkutTipuskodNev",
  "vFkAllomas_TalajvizkutTerepmag",
  "vFkAllomas_TalajvizkutKutperemmag",
  "vFkAllomas_TalajvizkutKutmelyseg",
  "vFkAllomas_TalajvizjutGyorsadat",
  "vFkAllomas_FkAllVKImon",
  "vFkAllomas_FkAllUzemelesNev"]

/-- The two entries of the `st.selectbox` (the UI restricts the table
choice to exactly these). -/
inductive TableChoice where
  | talajviz : TableChoice
  | melyviz : TableChoice
deriving DecidableEq

/-- Display / SQL name of the chosen table. -/
def TableChoice.name : TableChoice → String
  | .talajviz => "talajviz_table"
  | .melyviz => "melyviz_table"

/-- `META_COLS_BY_TABLE` lookup. -/
def metaColsNeeded : TableChoice → List String
  | .talajviz => META_COLS_TALAJ
  | .melyviz => META_COLS_MELY

/-- The variant's fixed reference-elevation (peremmag) column. -/
def col1name : TableChoice → String
  | .talajviz => "vFkAllomas_TalajvizkutKutperemmag"
  | .melyviz => "vFaAllomas_RetegvizkutKutperemmag"

/-! ## Code-point string order (Python's `sorted` on str) -/

/-- Lexicographic comparison of character lists by code point. -/
def charsLe : List Char → List Char → Bool
  | [], _ => true
  | _ :: _, [] => false
  | a :: as, b :: bs =>
      if a.toNat < b.toNat then true
      else if b.toNat < a.toNat then false
      else charsLe as bs

/-- The string order Python's `sorted` uses. -/
def strLe (a b : String) : Prop := charsLe a.data b.data = true

instance : DecidableRel strLe := fun a b => by
  unfold strLe; infer_instance

theorem charsLe_total : ∀ as bs, charsLe as bs = true ∨ charsLe bs as = true
  | [], _ => Or.inl rfl
  | _ :: _, [] => Or.inr rfl
  | a :: as, b :: bs => by
      rcases Nat.lt_trichotomy a.toNat b.toNat with h | h | h
      · left; simp [charsLe, h]
      · have hne : ¬ a.toNat < b.toNat := by omega
        have hne2 : ¬ b.toNat < a.toNat := by omega
        rcases charsLe_total as bs with h2 | h2
        · left; simp [charsLe, hne, hne2, h2]
        · right; simp [charsLe, hne, hne2, h2]
      · right; simp [charsLe, h]

theorem charsLe_trans : ∀ as bs cs, charsLe as bs = true →
    charsLe bs cs = true → charsLe as cs = true
  | [], _, _ => fun _ _ => rfl
  | _ :: _, [], _ => fun h _ => by simp [charsLe] at h
  | _ :: _, _ :: _, [] => fun _ h2 => by simp [charsLe] at h2
  | a :: as, b :: bs, c :: cs => fun h1 h2 => by
      simp only [charsLe] at h1 h2 ⊢
      rcases Nat.lt_trichotomy a.toNat b.toNat with hab | hab | hab <;>
        rcases Nat.lt_trichotomy b.toNat c.toNat with hbc | hbc | hbc
      all_goals first
        | (rw [if_pos (show a.toNat < c.toNat from by omega)])
        | (rw [if_neg (show ¬ a.toNat < b.toNat from by omega),
               if_pos (show b.toNat < a.toNat from by omega)] at h1
           exact absurd h1 (by simp))
        | (rw [if_neg (show ¬ b.toNat < c.toNat from by omega),
               if_pos (show c.toNat < b.toNat from by omega)] at h2
           exact absurd h2 (by simp))
        | (rw [if_neg (show ¬ a.toNat < b.toNat from by omega),
               if_neg (show ¬ b.toNat < a.toNat from by omega)] at h1
           rw [if_neg (show ¬ b.toNat < c.toNat from by omega),
               if_neg (show ¬ c.toNat < b.toNat from by omega)] at h2
           rw [if_neg (show ¬ a.toNat < c.toNat from by omega),
               if_neg (show ¬ c.toNat < a.toNat from by omega)]
           exact charsLe_trans as bs cs h1 h2)

theorem charsLe_antisymm : ∀ as bs, charsLe as bs = true →
    charsLe bs as = true → as = bs
  | [], [] => fun _ _ => rfl
  | [], _ :: _ => fun _ h2 => by simp [charsLe] at h2
  | _ :: _, [] => fun h1 _ => by simp [charsLe] at h1
  | a :: as, b :: bs => fun h1 h2 => by
      by_cases hab : a.toNat < b.toNat
      · simp [charsLe, hab, show ¬ b.toNat < a.toNat from by omega] at h2
      · by_cases hba : b.toNat < a.toNat
        · simp [charsLe, hab, hba] at h1
        · have hn : a.toNat = b.toNat := by omega
          have he : a = b := Char.ext (UInt32.toNat.inj hn)
          subst he
          simp only [charsLe, hab, if_false, ite_false, lt_irrefl,
            ite_self] at h1 h2
          rw [charsLe_antisymm as bs h1 h2]

theorem strLe_antisymm (a b : String) (h1 : strLe a b) (h2 : strLe b a) :
    a = b := by
  cases a with
  | mk as =>
    cases b with
    | mk bs =>
      exact congrArg String.mk (charsLe_antisymm as bs h1 h2)

instance : IsTotal String strLe := ⟨fun a b => charsLe_total a.data b.data⟩
instance : IsTrans String strLe :=
  ⟨fun a b c h1 h2 => charsLe_trans a.data b.data c.data h1 h2⟩

/-- Lexicographic sort of strings, as Python `sorted` on str. -/
def sortStrs (l : List String) : List String :=
  l.insertionSort strLe

/-- `ALL_META_COLS`: sorted union of the two whitelists. -/
def ALL_META_COLS : List String :=
  sortStrs (META_COLS_MELY ++ META_COLS_TALAJ).dedup

/-- `_load_meta`: fetch the catalog CSV (the `fetch` argument stands for
the network read; its failure is an uncaught exception), keep only
columns in `ALL_META_COLS` (in CSV order, as `usecols` does) and
deduplicate on `Rendszam` keeping the first occurrence. -/
def load_meta (fetch : Except String DF) : Except String DF :=
  match fetch with
  | .error e => .error e
  | .ok raw =>
    let df := raw.select (raw.cols.filter (fun c => decide (c ∈ ALL_META_COLS)))
    if "Rendszam" ∈ df.cols then
      .ok ⟨df.cols, dedupOn "Rendszam" df.rows⟩
    else .error "KeyError: Rendszam"

/-- Lines 103–107: keep the variant's wanted metadata columns that the
CSV actually has, then drop those that would collide with a column of
the measurement table (other than the join key). -/
def metaProj (tc : TableChoice) (df0 metaFull : DF) : DF :=
  let meta1 := metaFull.select
    ((metaColsNeeded tc).filter (fun c => decide (c ∈ metaFull.cols)))
  meta1.select (meta1.cols.filter
    (fun c => decide (¬ (c ∈ df0.cols ∧ c ≠ "Rendszam"))))

/-! ## Value ordering (for pandas sorts) -/

/-- Type rank, to give `Val` a total order across constructors. -/
def Val.rank : Val → ℕ
  | .null => 0
  | .num _ => 1
  | .str _ => 2
  | .date _ _ _ => 3

/-- Boolean comparison on values: numerics by ℚ, strings
lexicographically, dates lexicographically on (y, m, d); across
constructors by rank. -/
def Val.leB : Val → Val → Bool
  | .null, .null => true
  | .num a, .num b => decide (a ≤ b)
  | .str a, .str b => charsLe a.data b.data
  | .date y m d, .date y2 m2 d2 =>
      decide (y < y2 ∨ (y = y2 ∧ (m < m2 ∨ (m = m2 ∧ d ≤ d2))))
  | v, w => decide (v.rank < w.rank)

/-- The order on values as a proposition. -/
def Val.le (v w : Val) : Prop := Val.leB v w = true

instance : DecidableRel Val.le := fun v w => by
  unfold Val.le; infer_instance

theorem lex3_total {a b c a2 b2 c2 : ℚ} :
    (a < a2 ∨ (a = a2 ∧ (b < b2 ∨ (b = b2 ∧ c ≤ c2)))) ∨
    (a2 < a ∨ (a2 = a ∧ (b2 < b ∨ (b2 = b ∧ c2 ≤ c)))) := by
  rcases lt_trichotomy a a2 with h | h | h
  · exact Or.inl (Or.inl h)
  · subst h
    rcases lt_trichotomy b b2 with h2 | h2 | h2
    · exact Or.inl (Or.inr ⟨rfl, Or.inl h2⟩)
    · subst h2
      rcases le_total c c2 with h3 | h3
      · exact Or.inl (Or.inr ⟨rfl, Or.inr ⟨rfl, h3⟩⟩)
      · exact Or.inr (Or.inr ⟨rfl, Or.inr ⟨rfl, h3⟩⟩)
    · exact Or.inr (Or.inr ⟨rfl, Or.inl h2⟩)
  · exact Or.inr (Or.inl h)

theorem lex3_trans {a b c a2 b2 c2 a3 b3 c3 : ℚ}
    (h1 : a < a2 ∨ (a = a2 ∧ (b < b2 ∨ (b = b2 ∧ c ≤ c2))))
    (h2 : a2 < a3 ∨ (a2 = a3 ∧ (b2 < b3 ∨ (b2 = b3 ∧ c2 ≤ c3)))) :
    a < a3 ∨ (a = a3 ∧ (b < b3 ∨ (b = b3 ∧ c ≤ c3))) := by
  rcases h1 with h1 | ⟨rfl, h1⟩
  · rcases h2 with h2 | ⟨rfl, h2⟩
    · exact Or.inl (h1.trans h2)
    · exact Or.inl h1
  · rcases h2 with h2 | ⟨rfl, h2⟩
    · exact Or.inl h2
    · rcases h1 with h1 | ⟨rfl, h1⟩
      · rcases h2 with h2 | ⟨rfl, h2⟩
        · exact Or.inr ⟨rfl, Or.inl (h1.trans h2)⟩
        · exact Or.inr ⟨rfl, Or.inl h1⟩
      · rcases h2 with h2 | ⟨rfl, h2⟩
        · exact Or.inr ⟨rfl, Or.inl h2⟩
        · exact Or.inr ⟨rfl, Or.inr ⟨rfl, h1.trans h2⟩⟩

theorem lex3_antisymm {a b c a2 b2 c2 : ℚ}
    (h1 : a < a2 ∨ (a = a2 ∧ (b < b2 ∨ (b = b2 ∧ c ≤ c2))))
    (h2 : a2 < a ∨ (a2 = a ∧ (b2 < b ∨ (b2 = b ∧ c2 ≤ c)))) :
    a = a2 ∧ b = b2 ∧ c = c2 := by
  have ha : a = a2 := by
    rcases h1 with h1 | ⟨h1e, _⟩ <;> rcases h2 with h2 | ⟨h2e, _⟩ <;>
      first | exact h1e | exact h2e.symm | linarith
  subst ha
  have hb : b = b2 := by
    rcases h1 with h1 | ⟨_, h1⟩
    · linarith
    · rcases h2 with h2 | ⟨_, h2⟩
      · linarith
      · rcases h1 with h1 | ⟨h1e, _⟩ <;> rcases h2 with h2 | ⟨h2e, _⟩ <;>
          first | exact h1e | exact h2e.symm | linarith
  subst hb
  refine ⟨rfl, rfl, ?_⟩
  rcases h1 with h1 | ⟨_, h1⟩
  · linarith
  · rcases h1 with h1 | ⟨_, h1⟩
    · linarith
    · rcases h2 with h2 | ⟨_, h2⟩
      · linarith
      · rcases h2 with h2 | ⟨_, h2⟩
        · linarith
        · exact le_antisymm h1 h2

theorem valLe_total (v w : Val) : Val.le v w ∨ Val.le w v := by
  cases v <;> cases w <;>
    simp only [Val.le, Val.leB, Val.rank, decide_eq_true_eq] <;>
    first
      | trivial
      | exact le_total _ _
      | exact charsLe_total _ _
      | exact lex3_total

theorem valLe_trans {u v w : Val} (h1 : Val.le u v) (h2 : Val.le v w) :
    Val.le u w := by
  cases u <;> cases v <;> cases w <;>
    simp only [Val.le, Val.leB, Val.rank, decide_eq_true_eq] at h1 h2 ⊢ <;>
    first
      | trivial
      | exact le_trans h1 h2
      | exact charsLe_trans _ _ _ h1 h2
      | exact lex3_trans h1 h2

theorem valLe_antisymm {v w : Val} (h1 : Val.le v w) (h2 : Val.le w v) :
    v = w := by
  cases v <;> cases w <;>
    simp only [Val.le, Val.leB, Val.rank, decide_eq_true_eq] at h1 h2 <;>
    first
      | rfl
      | omega
      | (rw [le_antisymm h1 h2])
      | (rw [strLe_antisymm _ _ h1 h2])
      | (obtain ⟨rfl, rfl, rfl⟩ := lex3_antisymm h1 h2; rfl)

theorem valLe_refl (v : Val) : Val.le v v :=
  (valLe_total v v).elim id id

instance : IsTotal Val Val.le := ⟨valLe_total⟩
instance : IsTrans Val Val.le := ⟨fun _ _ _ => valLe_trans⟩

/-- Lexicographic combination of two orders on a pair (pandas
multi-column sort key). -/
def lex2 {α β : Type} (la : α → α → Prop) (lb : β → β → Prop)
    (p q : α × β) : Prop :=
  la p.1 q.1 ∧ (p.1 = q.1 → lb p.2 q.2)

theorem lex2_total {α β : Type} {la : α → α → Prop} {lb : β → β → Prop}
    (hat : ∀ a b, la a b ∨ la b a)
    (hbt : ∀ a b, lb a b ∨ lb b a) :
    ∀ p q, lex2 la lb p q ∨ lex2 la lb q p := by
  rintro ⟨a, b⟩ ⟨c, d⟩
  by_cases he : a = c
  · subst he
    have h : la a a := (hat a a).elim id id
    rcases hbt b d with h3 | h3
    · exact Or.inl ⟨h, fun _ => h3⟩
    · exact Or.inr ⟨h, fun _ => h3⟩
  · rcases hat a c with h | h
    · exact Or.inl ⟨h, fun he2 => absurd he2 he⟩
    · exact Or.inr ⟨h, fun he2 => absurd he2.symm he⟩

theorem lex2_trans {α β : Type} {la : α → α → Prop} {lb : β → β → Prop}
    (hatr : ∀ a b c, la a b → la b c → la a c)
    (haa : ∀ a b, la a b → la b a → a = b)
    (hbtr : ∀ a b c, lb a b → lb b c → lb a c) :
    ∀ p q r, lex2 la lb p q → lex2 la lb q r → lex2 la lb p r := by
  rintro p q r ⟨h1, h1e⟩ ⟨h2, h2e⟩
  refine ⟨hatr _ _ _ h1 h2, fun he => ?_⟩
  have hqp : la q.1 p.1 := he ▸ h2
  have he1 : p.1 = q.1 := haa _ _ h1 hqp
  have he2 : q.1 = r.1 := he1 ▸ he
  exact hbtr _ _ _ (h1e he1) (h2e he2)

theorem lex2_antisymm {α β : Type} {la : α → α → Prop} {lb : β → β → Prop}
    (haa : ∀ a b, la a b → la b a → a = b)
    (hba : ∀ a b, lb a b → lb b a → a = b) :
    ∀ p q, lex2 la lb p q → lex2 la lb q p → p = q := by
  rintro p q ⟨h1, h1e⟩ ⟨h2, h2e⟩
  have he1 : p.1 = q.1 := haa _ _ h1 h2
  have he2 : p.2 = q.2 := hba _ _ (h1e he1) (h2e he1.symm)
  exact Prod.ext he1 he2

/-- Pair order used for sorting (Year, Month) pivot column keys. -/
def pairLe : (Val × Val) → (Val × Val) → Prop := lex2 Val.le Val.le

instance : DecidableRel pairLe := fun p q => by
  unfold pairLe lex2; infer_instance

theorem valLe_trans3 (a b c : Val) : Val.le a b → Val.le b c → Val.le a c :=
  fun h1 h2 => valLe_trans h1 h2

theorem valLe_antisymm2 (a b : Val) : Val.le a b → Val.le b a → a = b :=
  fun h1 h2 => valLe_antisymm h1 h2

theorem pairLe_total (p q : Val × Val) : pairLe p q ∨ pairLe q p :=
  lex2_total valLe_total valLe_total p q

theorem pairLe_trans3 (p q r : Val × Val) :
    pairLe p q → pairLe q r → pairLe p r :=
  lex2_trans valLe_trans3 valLe_antisymm2 valLe_trans3 p q r

theorem pairLe_antisymm2 (p q : Val × Val) : pairLe p q → pairLe q p → p = q :=
  lex2_antisymm valLe_antisymm2 valLe_antisymm2 p q

instance : IsTotal (Val × Val) pairLe := ⟨pairLe_total⟩
instance : IsTrans (Val × Val) pairLe := ⟨pairLe_trans3⟩

/-- Triple order used for sorting groupby keys (well, year, month). -/
def tripleLe : (Val × Val × Val) → (Val × Val × Val) → Prop :=
  lex2 Val.le pairLe

instance : DecidableRel tripleLe := fun p q => by
  unfold tripleLe lex2 pairLe lex2; infer_instance

instance : IsTotal (Val × Val × Val) tripleLe :=
  ⟨lex2_total valLe_total pairLe_total⟩
instance : IsTrans (Val × Val × Val) tripleLe :=
  ⟨lex2_trans valLe_trans3 valLe_antisymm2 pairLe_trans3⟩

/-- Sort key of `sort_values(["Rendszam", "date"])`. -/
def rowKeyLe (r1 r2 : Row) : Prop :=
  lex2 Val.le Val.le (r1.get "Rendszam", r1.get "date")
    (r2.get "Rendszam", r2.get "date")

instance : DecidableRel rowKeyLe := fun r1 r2 => by
  unfold rowKeyLe lex2; infer_instance

instance : IsTotal Row rowKeyLe :=
  ⟨fun _ _ => pairLe_total _ _⟩
instance : IsTrans Row rowKeyLe :=
  ⟨fun _ _ _ h1 h2 => pairLe_trans3 _ _ _ h1 h2⟩

/-! ## Derivation, time binning, null-drop -/

/-- Numeric addition with pandas null propagation (the two operand
columns are numeric in the data; a NaN on either side gives NaN). -/
def addVal : Val → Val → Val
  | .num a, .num b => .num (a + b)
  | _, _ => .null

/-- Line 125: `df["vizkutfenekmagasag"] = df[col1] + df[col2]`. -/
def elevCol (c1 c2 : String) (df : DF) : DF :=
  df.setColF "vizkutfenekmagasag" (fun r => addVal (r.get c1) (r.get c2))

/-- Split a character list at dashes (`str.split("-")`). -/
def splitDash : List Char → List Char → List (List Char)
  | [], acc => [acc.reverse]
  | c :: cs, acc =>
      if c = '-' then acc.reverse :: splitDash cs []
      else splitDash cs (c :: acc)

/-- Numeric value of a non-empty all-digit character list. -/
def digitsValAux : List Char → ℕ → Option ℕ
  | [], acc => some acc
  | c :: cs, acc =>
      if 48 ≤ c.toNat ∧ c.toNat ≤ 57 then
        digitsValAux cs (acc * 10 + (c.toNat - 48))
      else none

/-- Numeric value of a character list, `none` unless non-empty and all
digits. -/
def digitsVal : List Char → Option ℕ
  | [] => none
  | c :: cs => digitsValAux (c :: cs) 0

/-- `pd.to_datetime(value, errors="coerce")` on an ISO `Y-M-D` string:
unparseable values become null instead of raising; already-parsed
datetimes pass through. -/
def parseDatum : Val → Option (ℚ × ℚ × ℚ)
  | .str s =>
    match splitDash s.data [] with
    | [ys, ms, ds] =>
      match digitsVal ys, digitsVal ms, digitsVal ds with
      | some y, some m, some d =>
        if 1 ≤ m ∧ m ≤ 12 ∧ 1 ≤ d ∧ d ≤ 31 then
          some ((y : ℚ), (m : ℚ), (d : ℚ))
        else none
      | _, _, _ => none
    | _ => none
  | .date y m d => some (y, m, d)
  | _ => none

/-- Lines 129–131: coerce `Datum`, then project `Year` and `Month` from
the parsed column (null wherever the parse failed). -/
def timeCols (df : DF) : DF :=
  let d1 := df.setColF "Datum" (fun r =>
    match parseDatum (r.get "Datum") with
    | some (y, m, d) => .date y m d
    | none => .null)
  let d2 := d1.setColF "Year" (fun r =>
    match r.get "Datum" with | .date y _ _ => .num y | _ => .null)
  d2.setColF "Month" (fun r =>
    match r.get "Datum" with | .date _ m _ => .num m | _ => .null)

/-- Row survives `dropna(subset=["Rendszam","Year","Month","vizkutfenekmagasag"])`. -/
def validRow (r : Row) : Bool :=
  decide (¬ r.get "Rendszam" = .null) && decide (¬ r.get "Year" = .null) &&
  decide (¬ r.get "Month" = .null) &&
  decide (¬ r.get "vizkutfenekmagasag" = .null)

/-- Line 140: the full valid derived row set. -/
def dropnaValid (df : DF) : DF := ⟨df.cols, df.rows.filter validRow⟩

/-- Line 141: preview restriction — an empty well selection means all
wells, otherwise keep selected wells only. -/
def previewFilter (selected : List Val) (df : DF) : DF :=
  if selected.isEmpty then df
  else ⟨df.cols, df.rows.filter (fun r => decide (r.get "Rendszam" ∈ selected))⟩

/-! ## Aggregation -/

/-- Checkbox results to the statistic list, in the fixed dict order
mean, min, max. -/
def statsOf (useMean useMin useMax : Bool) : List String :=
  (if useMean then ["mean"] else []) ++ (if useMin then ["min"] else []) ++
  (if useMax then ["max"] else [])

/-- Numeric content of a cell. -/
def numOf : Val → Option ℚ
  | .num q => some q
  | _ => none

/-- One pandas aggregate over the non-null numeric values of a group. -/
def statOf (s : String) (vs : List Val) : Val :=
  match vs.filterMap numOf with
  | [] => .null
  | x :: rest =>
    if s = "mean" then
      .num (((x :: rest).foldr (· + ·) 0) / ((x :: rest).length : ℚ))
    else if s = "min" then .num (rest.foldl min x)
    else if s = "max" then .num (rest.foldl max x)
    else .null

/-- Groupby key (NaN keys drop the row, as pandas groupby does). -/
def groupKey (r : Row) : Val × Val × Val :=
  (r.get "Rendszam", r.get "Year", r.get "Month")

def keyHasNull (k : Val × Val × Val) : Bool :=
  decide (k.1 = .null ∨ k.2.1 = .null ∨ k.2.2 = .null)

/-- `groupby(["Rendszam","Year","Month"])[valueCol].agg(stats).reset_index()`:
one row per distinct key, keys sorted, one trailing column per selected
statistic. -/
def groupbyAgg (valueCol : String) (rows : List Row) (stats : List String) :
    DF :=
  let rows2 := rows.filter (fun r => ! keyHasNull (groupKey r))
  let keys := ((rows2.map groupKey).dedup).insertionSort tripleLe
  ⟨["Rendszam", "Year", "Month"] ++ stats,
   keys.map (fun k =>
     let g := rows2.filter (fun r => decide (groupKey r = k))
     [("Rendszam", k.1), ("Year", k.2.1), ("Month", k.2.2)] ++
       stats.map (fun s => (s, statOf s (g.map (fun r => r.get valueCol)))))⟩

/-- Line 158: synthesized first-of-month date for sorting/plotting. -/
def withDate (df : DF) : DF :=
  df.setColF "date" (fun r =>
    match r.get "Year", r.get "Month" with
    | .num y, .num m => .date y m 1
    | _, _ => .null)

/-! ## Wide-form pivot -/

/-- Python `int(x)` on a numeric cell, rendered to a string. -/
def pyIntStr : Val → String
  | .num q => toString (q.num.tdiv (q.den : ℤ))
  | _ => "nan"

/-- `f"{int(m):02d}"`: zero-pad to two characters. -/
def pad2 (v : Val) : String :=
  let s := pyIntStr v
  if s.length < 2 then "0" ++ s else s

/-- The canonical wide column token `f"{int(y)}_{int(m):02d}_{s}"`. -/
def token (y m : Val) (s : String) : String :=
  pyIntStr y ++ "_" ++ pad2 m ++ "_" ++ s

/-- Lines 180–185: per-statistic pivots of (well × (year, month)),
renamed to canonical tokens and concatenated side by side; a well/month
combination with no aggregate row reads as null. -/
def wideCore (aggAll : DF) (stats : List String) : DF :=
  let wells := ((aggAll.rows.map (fun r => r.get "Rendszam")).dedup).insertionSort Val.le
  let groups := ((aggAll.rows.map (fun r =>
    (r.get "Year", r.get "Month"))).dedup).insertionSort pairLe
  ⟨"Rendszam" :: stats.flatMap (fun s => groups.map (fun g => token g.1 g.2 s)),
   wells.map (fun w =>
     ("Rendszam", w) :: stats.flatMap (fun s => groups.map (fun g =>
       (token g.1 g.2 s,
        match aggAll.rows.find? (fun r =>
          decide (r.get "Rendszam" = w ∧ r.get "Year" = g.1 ∧
            r.get "Month" = g.2)) with
        | some r => r.get s
        | none => .null))))⟩

/-- `c.rsplit("_", 1)[0]` on the character list. -/
def rsplitBaseL (cs : List Char) : List Char :=
  if '_' ∈ cs then
    ((cs.reverse.dropWhile (fun ch => decide (ch ≠ '_'))).drop 1).reverse
  else cs

/-- `c.rsplit("_", 1)[0]`. -/
def rsplitBase (c : String) : String := ⟨rsplitBaseL c.data⟩

/-- Lines 189–195: the deterministic final column order — identifier,
then wanted metadata columns present, then per `year_month` base (bases
sorted lexicographically as strings) the selected statistics in the
fixed mean, min, max order. -/
def orderedCols (wideCols : List String) (metaNeeded : List String)
    (stats : List String) : List String :=
  let ord0 := "Rendszam" :: (metaNeeded.drop 1).filter
    (fun c => decide (c ∈ wideCols))
  let bases := sortStrs ((wideCols.filter
    (fun c => decide (c ∉ ord0))).map rsplitBase).dedup
  ord0 ++ bases.flatMap (fun b =>
    (stats.map (fun s => b ++ "_" ++ s)).filter
      (fun col => decide (col ∈ wideCols)))

/-! ## The page -/

/-- What one invocation of the page shows the user: a displayed error, a
displayed warning, or the long preview table plus the wide export
table. -/
inductive PageResult where
  | errorShown : String → PageResult
  | warnShown : String → PageResult
  | ok : DF → DF → PageResult
deriving DecidableEq

/-- Inputs of one invocation: the widget states and the results the two
external collaborators (SQL store, catalog fetch) would deliver. -/
structure PageInput where
  tableChoice : TableChoice
  loadTable : Except String DF
  fetchMeta : Except String DF
  selected : List Val
  useMean : Bool
  useMin : Bool
  useMax : Bool

/-- Lines 111–122: water-level column (accented name first, ASCII
fallback) and the variant's fixed reference-elevation column; `none`
when either is missing from the enriched column set. -/
def resolveCols (tc : TableChoice) (df : DF) : Option (String × String) :=
  let c2o := if "Talajvízállás" ∈ df.cols then some "Talajvízállás"
    else if "Talajvizallas" ∈ df.cols then some "Talajvizallas" else none
  match c2o with
  | none => none
  | some c2 =>
    if col1name tc ∈ df.cols then some (col1name tc, c2) else none

/-- Lines 153–160: aggregate the preview rows, attach the synthesized
date, re-attach metadata, sort by (well, date). -/
def longTable (meta : DF) (dfp : DF) (stats : List String) :
    Except String DF :=
  match mergeLeft (withDate (groupbyAgg "vizkutfenekmagasag" dfp.rows stats))
      meta with
  | .error e => .error e
  | .ok aggm => .ok ⟨aggm.cols, aggm.rows.insertionSort rowKeyLe⟩

/-- Lines 175–195: aggregate all valid rows, pivot, prepend metadata by
a right merge, reorder columns deterministically. -/
def wideTable (tc : TableChoice) (meta : DF) (dfv : DF)
    (stats : List String) : Except String DF :=
  match mergeRight meta
      (wideCore (groupbyAgg "vizkutfenekmagasag" dfv.rows stats) stats) with
  | .error e => .error e
  | .ok w => .ok (w.select (orderedCols w.cols (metaColsNeeded tc) stats))

/-- The whole `monthly_page` invocation.  `Except.error` is an uncaught
exception escaping the function; `PageResult` captures what the page
displays (`st.error`/`st.warning` early exits, or the two tables). -/
def monthly_page (inp : PageInput) : Except String PageResult :=
  match inp.loadTable with
  | .error e =>
      .ok (.errorShown ("Failed to load " ++ inp.tableChoice.name ++ ": " ++ e))
  | .ok df0 =>
    match load_meta inp.fetchMeta with
    | .error e => .error e
    | .ok metaFull =>
      let meta := metaProj inp.tableChoice df0 metaFull
      match mergeLeft df0 meta with
      | .error e => .error e
      | .ok df1 =>
        match resolveCols inp.tableChoice df1 with
        | none =>
            .ok (.errorShown "Required columns are missing in the selected table.")
        | some (c1, c2) =>
          let df2 := elevCol c1 c2 df1
          if "Datum" ∈ df2.cols then
            let dfv := dropnaValid (timeCols df2)
            let dfp := previewFilter inp.selected dfv
            let stats := statsOf inp.useMean inp.useMin inp.useMax
            if stats.isEmpty then
              .ok (.warnShown "Please select at least one statistic.")
            else
              match longTable meta dfp stats with
              | .error e => .error e
              | .ok long =>
                match wideTable inp.tableChoice meta dfv stats with
                | .error e => .error e
                | .ok wide => .ok (.ok long wide)
          else .ok (.errorShown "No 'Datum' column found.")

/-! ## Concrete frames (shallow variant) used to instantiate theorems -/

/-- A small measurement table: two wells with good timestamps, one
well with an unparseable timestamp; it carries its own peremmag
column. -/
def tblA : DF :=
  ⟨["Rendszam", "Datum", "Talajvizallas", "vFkAllomas_TalajvizkutKutperemmag"],
   [[("Rendszam", .str "W1"), ("Datum", .str "2021-01-15"),
     ("Talajvizallas", .num (-2)), ("vFkAllomas_TalajvizkutKutperemmag", .num 10)],
    [("Rendszam", .str "W1"), ("Datum", .str "2021-01-20"),
     ("Talajvizallas", .num (-3)), ("vFkAllomas_TalajvizkutKutperemmag", .num 10)],
    [("Rendszam", .str "W2"), ("Datum", .str "2021-02-01"),
     ("Talajvizallas", .num (-5)), ("vFkAllomas_TalajvizkutKutperemmag", .num 20)],
    [("Rendszam", .str "W3"), ("Datum", .str "oops"),
     ("Talajvizallas", .num (-1)), ("vFkAllomas_TalajvizkutKutperemmag", .num 30)]]⟩

/-- A small metadata catalog CSV: a duplicate record for W1 and a
metadata-only well W9 that has no measurements. -/
def csvA : DF :=
  ⟨["Rendszam", "vmoNev", "Extra"],
   [[("Rendszam", .str "W1"), ("vmoNev", .str "A"), ("Extra", .str "x")],
    [("Rendszam", .str "W1"), ("vmoNev", .str "dup"), ("Extra", .str "y")],
    [("Rendszam", .str "W9"), ("vmoNev", .str "metaonly"), ("Extra", .str "z")]]⟩

deriving instance DecidableEq for Except

/-- Invocation whose catalog fetch fails. -/
def inpC1 : PageInput := ⟨.talajviz, .ok tblA, .error "fetch failed", [], true, true, true⟩

/-- Invocation with no statistic selected. -/
def inpC7 : PageInput := ⟨.talajviz, .ok tblA, .ok csvA, [], false, false, false⟩

/-- A fully regular invocation (all statistics, no preview filter). -/
def inpA : PageInput := ⟨.talajviz, .ok tblA, .ok csvA, [], true, true, true⟩

/-- One-row frame for the elevation derivation, whose water-level
column is absent. -/
def dfC6 : DF := ⟨["Talajvizallas"], [[("Talajvizallas", Val.num 3)]]⟩

/-- The row `dfC6`'s single row becomes after the derivation. -/
def rowC6 : Row := [("vizkutfenekmagasag", Val.null), ("Talajvizallas", Val.num 3)]

/-- Measurement table lacking both water-level column names. -/
def tblC5a : DF :=
  ⟨["Rendszam", "Datum", "vFkAllomas_TalajvizkutKutperemmag"],
   [[("Rendszam", .str "W1"), ("Datum", .str "2021-01-15"),
     ("vFkAllomas_TalajvizkutKutperemmag", .num 10)]]⟩

/-- Measurement table lacking the reference-elevation column (the
catalog `csvA` does not supply it either). -/
def tblC5b : DF :=
  ⟨["Rendszam", "Datum", "Talajvizallas"],
   [[("Rendszam", .str "W1"), ("Datum", .str "2021-01-15"),
     ("Talajvizallas", .num (-2))]]⟩

/-- Invocation missing the water-level field. -/
def inpC5a : PageInput := ⟨.talajviz, .ok tblC5a, .ok csvA, [], true, true, true⟩

/-- Invocation missing the reference-elevation field. -/
def inpC5b : PageInput := ⟨.talajviz, .ok tblC5b, .ok csvA, [], true, true, true⟩

/-! ## Basic lemmas about rows and frames -/

theorem dedupOnAux_fuel (key : String) :
    ∀ (n : ℕ) (l : List Row), l.length ≤ n →
      dedupOnAux key n l = dedupOnAux key l.length l := by
  intro n
  induction n using Nat.strong_induction_on with
  | _ n ih =>
    intro l hl
    match n, l with
    | 0, [] => rfl
    | 0, r :: rs => exact absurd hl (by simp)
    | n + 1, [] => rfl
    | n + 1, r :: rs =>
      simp only [dedupOnAux, List.length_cons]
      have hrs : rs.length ≤ n := Nat.succ_le_succ_iff.mp hl
      have hf : (rs.filter (fun r2 => decide (¬ r2.get key = r.get key))).length ≤ rs.length :=
        List.length_filter_le _ _
      rw [ih n (Nat.lt_succ_self n) _ (le_trans hf hrs),
        ih rs.length (Nat.lt_succ_of_le hrs) _ hf]

/-- The recursion equation of `dedupOn`. -/
theorem dedupOn_cons (key : String) (r : Row) (rs : List Row) :
    dedupOn key (r :: rs) =
      r :: dedupOn key (rs.filter (fun r2 => decide (¬ r2.get key = r.get key))) := by
  unfold dedupOn
  simp only [List.length_cons, dedupOnAux]
  rw [dedupOnAux_fuel key rs.length _ (List.length_filter_le _ _)]

/-- Whether a row carries a pair for column `c`. -/
def Row.has (r : Row) (c : String) : Bool :=
  r.any (fun p => decide (p.1 = c))

theorem Row.get_nil (c : String) : Row.get [] c = .null := rfl

theorem Row.get_cons (p : String × Val) (r : Row) (c : String) :
    Row.get (p :: r) c = if p.1 = c then p.2 else Row.get r c := rfl

theorem Row.get_set_self (r : Row) (c : String) (v : Val) :
    (r.set c v).get c = v := by
  simp [Row.set, Row.get_cons]

theorem Row.get_set_ne (r : Row) (c c2 : String) (v : Val) (h : c ≠ c2) :
    (r.set c v).get c2 = r.get c2 := by
  simp [Row.set, Row.get_cons, h]

theorem Row.get_append (r1 r2 : Row) (c : String) :
    Row.get (r1 ++ r2) c = if r1.has c then r1.get c else r2.get c := by
  induction r1 with
  | nil => simp [Row.has, Row.get_nil]
  | cons p r ih =>
    by_cases h : p.1 = c
    · simp [Row.has, Row.get_cons, h]
    · simp only [List.cons_append, Row.get_cons, h, if_false, ih, Row.has,
        List.any_cons, decide_eq_true_eq]
      rw [decide_False, Bool.false_or]

theorem Row.get_of_not_has (r : Row) (c : String) (h : r.has c = false) :
    r.get c = .null := by
  induction r with
  | nil => rfl
  | cons p r ih =>
    simp only [Row.has, List.any_cons, Bool.or_eq_false_iff,
      decide_eq_false_iff_not] at h
    simp only [Row.get_cons, h.1, if_false]
    exact ih (by simp [Row.has, h.2])

theorem Row.has_false_of_keys (r : Row) (c : String) (cols : List String)
    (hwf : ∀ p ∈ r, p.1 ∈ cols) (hc : c ∉ cols) : r.has c = false := by
  induction r with
  | nil => rfl
  | cons p r ih =>
    simp only [Row.has, List.any_cons, Bool.or_eq_false_iff,
      decide_eq_false_iff_not]
    refine ⟨fun he => hc (he ▸ hwf p (by simp)), ?_⟩
    exact ih (fun q hq => hwf q (by simp [hq]))

/-- Reading a projected row (`DF.select`): present columns keep their
value, absent ones are null. -/
theorem Row.get_proj (r : Row) (cs : List String) (c : String) :
    Row.get (cs.map (fun c2 => (c2, r.get c2))) c =
      if c ∈ cs then r.get c else .null := by
  induction cs with
  | nil => simp [Row.get_nil]
  | cons c2 rest ih =>
    by_cases h : c2 = c
    · subst h; simp [Row.get_cons]
    · simp only [List.map_cons, Row.get_cons, h, if_false, ih, List.mem_cons]
      have hne : ¬ c = c2 := fun hc => h hc.symm
      simp [hne]

theorem DF.select_cols (df : DF) (cs : List String) :
    (df.select cs).cols = cs := rfl

theorem DF.select_rows (df : DF) (cs : List String) :
    (df.select cs).rows = df.rows.map (fun r => cs.map (fun c => (c, r.get c))) :=
  rfl

/-! ## Pipeline plumbing lemmas -/

theorem load_meta_ok_key (f : Except String DF) (metaFull : DF)
    (h : load_meta f = .ok metaFull) : "Rendszam" ∈ metaFull.cols := by
  unfold load_meta at h
  cases f with
  | error e => exact absurd h (by simp)
  | ok raw =>
    simp only at h
    split at h
    · cases h
      assumption
    · exact absurd h (by simp)

theorem metaColsNeeded_key (tc : TableChoice) :
    "Rendszam" ∈ metaColsNeeded tc := by
  cases tc <;> decide

theorem metaProj_key (tc : TableChoice) (df0 metaFull : DF)
    (h : "Rendszam" ∈ metaFull.cols) :
    "Rendszam" ∈ (metaProj tc df0 metaFull).cols := by
  unfold metaProj
  simp only [DF.select_cols, List.mem_filter, decide_eq_true_eq]
  exact ⟨⟨metaColsNeeded_key tc, by simpa using h⟩, by simp⟩

theorem mergeLeft_ok (df meta : DF) (h1 : "Rendszam" ∈ df.cols)
    (h2 : "Rendszam" ∈ meta.cols) :
    mergeLeft df meta =
      .ok ⟨df.cols ++ meta.cols.filter (fun c => decide (c ≠ "Rendszam")),
           joinRows df.rows meta⟩ := by
  simp [mergeLeft, h1, h2]

theorem mergeRight_ok (meta df : DF) (h1 : "Rendszam" ∈ meta.cols)
    (h2 : "Rendszam" ∈ df.cols) :
    mergeRight meta df =
      .ok ⟨meta.cols ++ df.cols.filter (fun c => decide (c ≠ "Rendszam")),
           joinRows df.rows meta⟩ := by
  simp [mergeRight, h1, h2]

theorem groupbyAgg_cols (valueCol : String) (rows : List Row)
    (stats : List String) :
    (groupbyAgg valueCol rows stats).cols = ["Rendszam", "Year", "Month"] ++ stats :=
  rfl

theorem withDate_key (df : DF) (h : "Rendszam" ∈ df.cols) :
    "Rendszam" ∈ (withDate df).cols := by
  simp only [withDate, DF.setColF]
  split <;> simp [h]

theorem wideCore_key (aggAll : DF) (stats : List String) :
    "Rendszam" ∈ (wideCore aggAll stats).cols := by
  simp [wideCore]

theorem longTable_ok (meta dfp : DF) (stats : List String)
    (hk : "Rendszam" ∈ meta.cols) :
    ∃ lt, longTable meta dfp stats = .ok lt := by
  unfold longTable
  rw [mergeLeft_ok _ _ (withDate_key _ (by simp [groupbyAgg_cols])) hk]
  exact ⟨_, rfl⟩

theorem wideTable_ok (tc : TableChoice) (meta dfv : DF) (stats : List String)
    (hk : "Rendszam" ∈ meta.cols) :
    ∃ wt, wideTable tc meta dfv stats = .ok wt := by
  unfold wideTable
  rw [mergeRight_ok _ _ hk (wideCore_key _ _)]
  exact ⟨_, rfl⟩

/-- Inversion: a successful invocation decomposes into the pipeline
stages with all intermediate results constrained. -/
theorem monthly_page_ok_inv (inp : PageInput) (l w : DF)
    (h : monthly_page inp = .ok (.ok l w)) :
    ∃ df0 metaFull df1 c1 c2,
      inp.loadTable = .ok df0 ∧
      load_meta inp.fetchMeta = .ok metaFull ∧
      mergeLeft df0 (metaProj inp.tableChoice df0 metaFull) = .ok df1 ∧
      resolveCols inp.tableChoice df1 = some (c1, c2) ∧
      "Datum" ∈ (elevCol c1 c2 df1).cols ∧
      statsOf inp.useMean inp.useMin inp.useMax ≠ [] ∧
      longTable (metaProj inp.tableChoice df0 metaFull)
        (previewFilter inp.selected (dropnaValid (timeCols (elevCol c1 c2 df1))))
        (statsOf inp.useMean inp.useMin inp.useMax) = .ok l ∧
      wideTable inp.tableChoice (metaProj inp.tableChoice df0 metaFull)
        (dropnaValid (timeCols (elevCol c1 c2 df1)))
        (statsOf inp.useMean inp.useMin inp.useMax) = .ok w := by
  unfold monthly_page at h
  cases hload : inp.loadTable with
  | error e => simp [hload] at h
  | ok df0 =>
    simp only [hload] at h
    cases hlm : load_meta inp.fetchMeta with
    | error e => simp [hlm] at h
    | ok metaFull =>
      simp only [hlm] at h
      cases hml : mergeLeft df0 (metaProj inp.tableChoice df0 metaFull) with
      | error e => simp [hml] at h
      | ok df1 =>
        simp only [hml] at h
        cases hr : resolveCols inp.tableChoice df1 with
        | none => simp [hr] at h
        | some pr =>
          obtain ⟨c1, c2⟩ := pr
          simp only [hr] at h
          by_cases hd : "Datum" ∈ (elevCol c1 c2 df1).cols
          · simp only [hd, if_true] at h
            cases hse : (statsOf inp.useMean inp.useMin inp.useMax).isEmpty with
            | true => simp [hse] at h
            | false =>
              simp only [hse, Bool.false_eq_true, if_false] at h
              cases hlong : longTable (metaProj inp.tableChoice df0 metaFull)
                  (previewFilter inp.selected
                    (dropnaValid (timeCols (elevCol c1 c2 df1))))
                  (statsOf inp.useMean inp.useMin inp.useMax) with
              | error e => simp [hlong] at h
              | ok long =>
                simp only [hlong] at h
                cases hwide : wideTable inp.tableChoice
                    (metaProj inp.tableChoice df0 metaFull)
                    (dropnaValid (timeCols (elevCol c1 c2 df1)))
                    (statsOf inp.useMean inp.useMin inp.useMax) with
                | error e => simp [hwide] at h
                | ok wide =>
                  simp only [hwide, Except.ok.injEq, PageResult.ok.injEq] at h
                  obtain ⟨hl, hw⟩ := h
                  refine ⟨df0, metaFull, df1, c1, c2, rfl, rfl, hml, hr, hd,
                    ?_, ?_, ?_⟩
                  · intro hnil
                    simp [hnil] at hse
                  · rw [← hl]; exact hlong
                  · rw [← hw]; exact hwide
          · simp [hd] at h

/-- If the stage equations up to the statistics step hold and the
selection is empty, the page warns and stops. -/
theorem monthly_page_warn_of_empty_stats (inp : PageInput)
    (df0 metaFull df1 : DF) (c1 c2 : String)
    (hload : inp.loadTable = .ok df0)
    (hlm : load_meta inp.fetchMeta = .ok metaFull)
    (hml : mergeLeft df0 (metaProj inp.tableChoice df0 metaFull) = .ok df1)
    (hr : resolveCols inp.tableChoice df1 = some (c1, c2))
    (hd : "Datum" ∈ (elevCol c1 c2 df1).cols)
    (hse : statsOf inp.useMean inp.useMin inp.useMax = []) :
    monthly_page inp = .ok (.warnShown "Please select at least one statistic.") := by
  unfold monthly_page
  rw [hload]
  simp only [hlm, hml, hr, hd, if_true, hse, List.isEmpty_nil, if_pos]

/-! ## C1 — metadata fetch failure -/

/-- C1, corrected: the claim says a failed catalog fetch is recoverable
and the invocation still returns its tables over an empty metadata
projection.  In the code `_load_meta()` is called with no handler, so
the fetch failure propagates out of `monthly_page` as an uncaught
exception: whenever the measurement table itself loaded, a fetch error
`e` makes the whole invocation abort with `e`, and no long-form or
wide-form table is produced. -/
theorem c1_fetch_failure_aborts (inp : PageInput) (df0 : DF) (e : String)
    (hload : inp.loadTable = .ok df0) (hfetch : inp.fetchMeta = .error e) :
    monthly_page inp = .error e := by
  unfold monthly_page
  rw [hload]
  simp only [hfetch, load_meta]

/-- C1, counterexample to the claim as stated: a concrete invocation
whose catalog fetch fails aborts with the fetch error instead of
completing with tables computed over empty metadata. -/
theorem c1_counterexample : monthly_page inpC1 = .error "fetch failed" := by
  decide

/-- C1 witness: the amended theorem applied at the concrete input. -/
theorem c1_witness :
    (inpC1.loadTable = .ok tblA ∧ inpC1.fetchMeta = .error "fetch failed") ∧
    monthly_page inpC1 = .error "fetch failed" :=
  ⟨⟨rfl, rfl⟩, c1_fetch_failure_aborts inpC1 tblA "fetch failed" rfl rfl⟩

/-! ## C6 — elevation null-propagation -/

/-- A cell that is a numeric value or null (the reference-elevation and
water-level columns are numeric in the data). -/
def isNumOrNull : Val → Bool
  | .null => true
  | .num _ => true
  | _ => false

/-- C6, confirmed: in the derived table produced by line 125, every
row's elevation is null iff at least one of the two resolved source
cells of that row is null, and equals their sum when both are
numbers. -/
theorem c6_elevation_null_iff (df : DF) (c1 c2 : String)
    (hc1 : c1 ≠ "vizkutfenekmagasag") (hc2 : c2 ≠ "vizkutfenekmagasag") :
    ∀ r2 ∈ (elevCol c1 c2 df).rows,
      (isNumOrNull (r2.get c1) = true → isNumOrNull (r2.get c2) = true →
        ((r2.get "vizkutfenekmagasag" = .null) ↔
          (r2.get c1 = .null ∨ r2.get c2 = .null))) ∧
      (∀ a b, r2.get c1 = .num a → r2.get c2 = .num b →
        r2.get "vizkutfenekmagasag" = .num (a + b)) := by
  intro r2 hr2
  simp only [elevCol, DF.setColF, List.mem_map] at hr2
  obtain ⟨r, hr, rfl⟩ := hr2
  rw [Row.get_set_self, Row.get_set_ne _ _ _ _ (Ne.symm hc1),
    Row.get_set_ne _ _ _ _ (Ne.symm hc2)]
  constructor
  · intro h1 h2
    cases hv1 : r.get c1 <;> cases hv2 : r.get c2 <;>
      simp_all [addVal, isNumOrNull]
  · intro a b ha hb
    simp [ha, hb, addVal]

/-- C6 witness: the theorem applied to a concrete derived row whose
second operand is a missing (hence null) cell. -/
theorem c6_witness :
    (("Talajvizallas" : String) ≠ "vizkutfenekmagasag" ∧
      ("x" : String) ≠ "vizkutfenekmagasag" ∧
      rowC6 ∈ (elevCol "Talajvizallas" "x" dfC6).rows ∧
      isNumOrNull (rowC6.get "Talajvizallas") = true ∧
      isNumOrNull (rowC6.get "x") = true) ∧
    ((rowC6.get "vizkutfenekmagasag" = Val.null) ↔
      (rowC6.get "Talajvizallas" = Val.null ∨ rowC6.get "x" = Val.null)) :=
  ⟨⟨by decide, by decide, by decide, by decide, by decide⟩,
    ((c6_elevation_null_iff dfC6 "Talajvizallas" "x" (by decide) (by decide))
      rowC6 (by decide)).1 (by decide) (by decide)⟩

/-! ## C7 — empty statistic selection -/

/-- C7, confirmed: with every statistic checkbox off the page never
produces tables (neither long nor wide), and when the pipeline reaches
the statistics step it stops with the warning — before any grouping or
aggregation. -/
theorem c7_empty_selection_rejected (inp : PageInput)
    (hm : inp.useMean = false) (hn : inp.useMin = false)
    (hx : inp.useMax = false) :
    (∀ l w, monthly_page inp ≠ .ok (.ok l w)) ∧
    (∀ df0 metaFull df1 c1 c2,
      inp.loadTable = .ok df0 →
      load_meta inp.fetchMeta = .ok metaFull →
      mergeLeft df0 (metaProj inp.tableChoice df0 metaFull) = .ok df1 →
      resolveCols inp.tableChoice df1 = some (c1, c2) →
      "Datum" ∈ (elevCol c1 c2 df1).cols →
      monthly_page inp = .ok (.warnShown "Please select at least one statistic.")) := by
  constructor
  · intro l w hcon
    obtain ⟨_, _, _, _, _, _, _, _, _, _, hs, _, _⟩ :=
      monthly_page_ok_inv inp l w hcon
    rw [hm, hn, hx] at hs
    exact hs rfl
  · intro df0 metaFull df1 c1 c2 hload hlm hml hr hd
    exact monthly_page_warn_of_empty_stats inp df0 metaFull df1 c1 c2
      hload hlm hml hr hd (by rw [hm, hn, hx]; rfl)

/-- C7 witness: no-statistic invocation at the concrete input — no
tables, and the concrete run shows exactly the warning. -/
theorem c7_witness :
    (inpC7.useMean = false ∧ inpC7.useMin = false ∧ inpC7.useMax = false) ∧
    (∀ l w, monthly_page inpC7 ≠ .ok (.ok l w)) ∧
    monthly_page inpC7 = .ok (.warnShown "Please select at least one statistic.") :=
  ⟨⟨rfl, rfl, rfl⟩, (c7_empty_selection_rejected inpC7 rfl rfl rfl).1, by decide⟩

/-! ## C5 — field resolution and its error -/

/-- C5, corrected: resolution tries the accented water-level name
first (even when the ASCII form is also present), falls back to the
ASCII name, and requires the variant's fixed reference-elevation
column verbatim; when resolution fails the page stops with an error
and produces no output table.  Corrected part: the message is the one
fixed string `"Required columns are missing in the selected table."`,
which does not name the specific missing field. -/
theorem c5_resolution_and_generic_error (tc : TableChoice) (df : DF) :
    ("Talajvízállás" ∈ df.cols → col1name tc ∈ df.cols →
      resolveCols tc df = some (col1name tc, "Talajvízállás")) ∧
    ("Talajvízállás" ∉ df.cols → "Talajvizallas" ∈ df.cols →
      col1name tc ∈ df.cols →
      resolveCols tc df = some (col1name tc, "Talajvizallas")) ∧
    (("Talajvízállás" ∉ df.cols ∧ "Talajvizallas" ∉ df.cols) ∨
        col1name tc ∉ df.cols →
      resolveCols tc df = none) ∧
    (∀ inp df0 metaFull,
      inp.tableChoice = tc →
      inp.loadTable = .ok df0 →
      load_meta inp.fetchMeta = .ok metaFull →
      mergeLeft df0 (metaProj tc df0 metaFull) = .ok df →
      resolveCols tc df = none →
      monthly_page inp =
        .ok (.errorShown "Required columns are missing in the selected table.") ∧
      ∀ l w, monthly_page inp ≠ .ok (.ok l w)) := by
  refine ⟨?_, ?_, ?_, ?_⟩
  · intro h2 h1
    simp [resolveCols, h1, h2]
  · intro h2n h2 h1
    simp [resolveCols, h1, h2, h2n]
  · intro h
    rcases h with ⟨h2n, h2n'⟩ | h1n
    · simp [resolveCols, h2n, h2n']
    · by_cases h2 : "Talajvízállás" ∈ df.cols
      · simp [resolveCols, h2, h1n]
      · by_cases h2' : "Talajvizallas" ∈ df.cols
        · simp [resolveCols, h2, h2', h1n]
        · simp [resolveCols, h2, h2']
  · intro inp df0 metaFull htc hload hlm hml hr
    subst htc
    have heq : monthly_page inp =
        .ok (.errorShown "Required columns are missing in the selected table.") := by
      unfold monthly_page
      rw [hload]
      simp only [hlm, hml, hr]
    exact ⟨heq, fun l w hcon => by rw [heq] at hcon; exact absurd hcon (by simp)⟩

/-- C5, counterexample to "naming the specific missing field": a run
missing only the water-level field and a run missing only the
reference-elevation field both show the same fixed message, and that
message contains neither the accented nor the ASCII water-level name
nor the reference-elevation name as a substring. -/
theorem c5_counterexample :
    monthly_page inpC5a =
      .ok (.errorShown "Required columns are missing in the selected table.") ∧
    monthly_page inpC5b =
      .ok (.errorShown "Required columns are missing in the selected table.") ∧
    ¬ ("Talajvizallas".data <:+:
        "Required columns are missing in the selected table.".data) ∧
    ¬ ("Talajvízállás".data <:+:
        "Required columns are missing in the selected table.".data) ∧
    ¬ ((col1name .talajviz).data <:+:
        "Required columns are missing in the selected table.".data) := by
  exact ⟨by decide, by decide, by decide, by decide, by decide⟩

/-- C5 witness: the theorem's parts at concrete inputs — accented-first
resolution on a frame carrying both spellings, and the generic-error
path of the failing invocation. -/
theorem c5_witness :
    (("Talajvízállás" ∈ (⟨["Talajvízállás", "Talajvizallas",
        "vFkAllomas_TalajvizkutKutperemmag"], []⟩ : DF).cols) ∧
      ("vFkAllomas_TalajvizkutKutperemmag" ∈ (⟨["Talajvízállás", "Talajvizallas",
        "vFkAllomas_TalajvizkutKutperemmag"], []⟩ : DF).cols)) ∧
    resolveCols .talajviz ⟨["Talajvízállás", "Talajvizallas",
        "vFkAllomas_TalajvizkutKutperemmag"], []⟩ =
      some ("vFkAllomas_TalajvizkutKutperemmag", "Talajvízállás") :=
  ⟨⟨by decide, by decide⟩,
    (c5_resolution_and_generic_error .talajviz
      ⟨["Talajvízállás", "Talajvizallas",
        "vFkAllomas_TalajvizkutKutperemmag"], []⟩).1 (by decide) (by decide)⟩

/-! ## C4 — long-form preview shape -/

/-- Every selected statistic name is one of the three fixed names. -/
theorem statsOf_mem (m n x : Bool) :
    ∀ s ∈ statsOf m n x, s = "mean" ∨ s = "min" ∨ s = "max" := by
  cases m <;> cases n <;> cases x <;> decide

/-- The projected metadata columns all come from the variant's
whitelist. -/
theorem metaProj_cols_sub (tc : TableChoice) (df0 metaFull : DF) :
    ∀ c ∈ (metaProj tc df0 metaFull).cols, c ∈ metaColsNeeded tc := by
  intro c hc
  simp only [metaProj, DF.select_cols, List.mem_filter,
    decide_eq_true_eq] at hc
  exact hc.1.1

/-- C4, corrected: the displayed long-form table is sorted by (well
identifier, synthesized date), but its column order is identifier,
year, month, the selected statistics (in the fixed mean, min, max
order), the synthesized date, and the metadata keys last — not
identifier, metadata, year, month, date, statistics as the claim
states.  Metadata is attached for both variants. -/
theorem c4_long_form_shape (inp : PageInput) (l w : DF)
    (hok : monthly_page inp = .ok (.ok l w)) :
    ∃ metaCols : List String,
      l.cols = ["Rendszam", "Year", "Month"] ++
        statsOf inp.useMean inp.useMin inp.useMax ++ ["date"] ++ metaCols ∧
      (∀ c ∈ metaCols, c ∈ metaColsNeeded inp.tableChoice ∧ c ≠ "Rendszam") ∧
      List.Sorted rowKeyLe l.rows := by
  obtain ⟨df0, metaFull, df1, c1, c2, hload, hlm, hml, hr, hd, hs, hlong, hwide⟩ :=
    monthly_page_ok_inv inp l w hok
  have hkeyM : "Rendszam" ∈ (metaProj inp.tableChoice df0 metaFull).cols :=
    metaProj_key _ _ _ (load_meta_ok_key _ _ hlm)
  set meta := metaProj inp.tableChoice df0 metaFull with hmeta
  set stats := statsOf inp.useMean inp.useMin inp.useMax with hstats
  set dfp := previewFilter inp.selected (dropnaValid (timeCols (elevCol c1 c2 df1)))
    with hdfp
  have hdate : "date" ∉ ["Rendszam", "Year", "Month"] ++ stats := by
    intro hmem
    rcases List.mem_append.mp hmem with hmem | hmem
    · simp at hmem
    · rw [hstats] at hmem
      rcases statsOf_mem _ _ _ _ hmem with h | h | h <;> simp at h
  have haggcols : (withDate (groupbyAgg "vizkutfenekmagasag" dfp.rows stats)).cols =
      ["Rendszam", "Year", "Month"] ++ stats ++ ["date"] := by
    simp only [withDate, DF.setColF, groupbyAgg_cols, if_neg hdate]
  have hkeyA : "Rendszam" ∈
      (withDate (groupbyAgg "vizkutfenekmagasag" dfp.rows stats)).cols := by
    rw [haggcols]; simp
  unfold longTable at hlong
  rw [mergeLeft_ok _ _ hkeyA hkeyM] at hlong
  simp only [Except.ok.injEq] at hlong
  refine ⟨meta.cols.filter (fun c => decide (c ≠ "Rendszam")), ?_, ?_, ?_⟩
  · rw [← hlong, haggcols]
  · intro c hc
    simp only [List.mem_filter, decide_eq_true_eq] at hc
    exact ⟨metaProj_cols_sub _ _ _ c hc.1, hc.2⟩
  · rw [← hlong]
    exact List.sorted_insertionSort rowKeyLe _

/-- C4, counterexample to the claimed column order: on a concrete run
the displayed long table's columns put year/month and the statistics
before the synthesized date and the metadata key `vmoNev` last,
whereas the claim requires identifier, metadata, year, month, date,
then statistics. -/
theorem c4_counterexample :
    (match monthly_page inpA with
      | .ok (.ok long _) => long.cols
      | _ => []) =
      ["Rendszam", "Year", "Month", "mean", "min", "max", "date", "vmoNev"] ∧
    ["Rendszam", "Year", "Month", "mean", "min", "max", "date", "vmoNev"] ≠
      ["Rendszam", "vmoNev", "Year", "Month", "date", "mean", "min", "max"] := by
  exact ⟨by decide, by decide⟩

/-- C4 witness: the amended theorem at the concrete regular run. -/
theorem c4_witness :
    (match monthly_page inpA with
      | .ok (.ok long _) => ∃ metaCols : List String,
          long.cols = ["Rendszam", "Year", "Month"] ++
            statsOf inpA.useMean inpA.useMin inpA.useMax ++ ["date"] ++ metaCols ∧
          (∀ c ∈ metaCols, c ∈ metaColsNeeded inpA.tableChoice ∧ c ≠ "Rendszam") ∧
          List.Sorted rowKeyLe long.rows
      | _ => False) := by
  have hb : (match monthly_page inpA with
    | .ok (.ok _ _) => true
    | _ => false) = true := by decide
  rcases hma : monthly_page inpA with e | pr
  · rw [hma] at hb
    simp at hb
  · rcases pr with msg | msg | ⟨long, wide⟩
    · rw [hma] at hb
      simp at hb
    · rw [hma] at hb
      simp at hb
    · exact c4_long_form_shape inpA long wide hma

/-- Forward evaluation: with every stage successful, the page returns
the two tables. -/
theorem monthly_page_eq_ok (inp : PageInput) (df0 metaFull df1 : DF)
    (c1 c2 : String) (l w : DF)
    (hload : inp.loadTable = .ok df0)
    (hlm : load_meta inp.fetchMeta = .ok metaFull)
    (hml : mergeLeft df0 (metaProj inp.tableChoice df0 metaFull) = .ok df1)
    (hr : resolveCols inp.tableChoice df1 = some (c1, c2))
    (hd : "Datum" ∈ (elevCol c1 c2 df1).cols)
    (hs : statsOf inp.useMean inp.useMin inp.useMax ≠ [])
    (hlong : longTable (metaProj inp.tableChoice df0 metaFull)
      (previewFilter inp.selected (dropnaValid (timeCols (elevCol c1 c2 df1))))
      (statsOf inp.useMean inp.useMin inp.useMax) = .ok l)
    (hwide : wideTable inp.tableChoice (metaProj inp.tableChoice df0 metaFull)
      (dropnaValid (timeCols (elevCol c1 c2 df1)))
      (statsOf inp.useMean inp.useMin inp.useMax) = .ok w) :
    monthly_page inp = .ok (.ok l w) := by
  have hse : (statsOf inp.useMean inp.useMin inp.useMax).isEmpty = false := by
    cases h2 : statsOf inp.useMean inp.useMin inp.useMax with
    | nil => exact absurd h2 hs
    | cons a as => rfl
  unfold monthly_page
  rw [hload]
  simp only [hlm, hml, hr, hd, if_true, hse, Bool.false_eq_true, if_false,
    hlong, hwide]

/-! ## C8 — unparseable timestamps -/

/-- C8, confirmed: a row whose timestamp does not parse gets null
`Datum`, `Year` and `Month` in the time-binned table, fails the
null-drop filter and is absent from the valid row set feeding both
aggregations; and the invocation is never aborted by row values —
whenever the structural stages succeed the page returns its two
tables, whatever the `Datum` cells contain. -/
theorem c8_unparseable_excluded (df : DF) :
    (∀ r ∈ df.rows, parseDatum (r.get "Datum") = none →
      ∃ r2 ∈ (timeCols df).rows,
        r2.get "Datum" = .null ∧ r2.get "Year" = .null ∧
        r2.get "Month" = .null ∧ validRow r2 = false ∧
        r2 ∉ (dropnaValid (timeCols df)).rows) ∧
    (∀ inp df0 metaFull df1 c1 c2,
      inp.loadTable = .ok df0 →
      load_meta inp.fetchMeta = .ok metaFull →
      mergeLeft df0 (metaProj inp.tableChoice df0 metaFull) = .ok df1 →
      resolveCols inp.tableChoice df1 = some (c1, c2) →
      "Datum" ∈ (elevCol c1 c2 df1).cols →
      statsOf inp.useMean inp.useMin inp.useMax ≠ [] →
      ∃ l w, monthly_page inp = .ok (.ok l w)) := by
  constructor
  · intro r hr hparse
    refine ⟨((r.set "Datum" .null).set "Year" .null).set "Month" .null, ?_, ?_, ?_, ?_, ?_, ?_⟩
    · simp only [timeCols, DF.setColF, List.map_map, List.mem_map]
      refine ⟨r, hr, ?_⟩
      simp only [Function.comp_apply, hparse]
      rw [Row.get_set_self]
      rw [Row.get_set_ne _ _ _ _ (by decide)]
      rw [Row.get_set_self]
    · rw [Row.get_set_ne _ _ _ _ (by decide),
        Row.get_set_ne _ _ _ _ (by decide), Row.get_set_self]
    · rw [Row.get_set_ne _ _ _ _ (by decide), Row.get_set_self]
    · rw [Row.get_set_self]
    · unfold validRow
      rw [Row.get_set_ne _ _ _ _ (by decide), Row.get_set_self]
      simp
    · intro hmem
      simp only [dropnaValid, List.mem_filter] at hmem
      have hv : validRow (((r.set "Datum" .null).set "Year" .null).set "Month" .null) = false := by
        unfold validRow
        rw [Row.get_set_ne _ _ _ _ (by decide), Row.get_set_self]
        simp
      rw [hmem.2] at hv
      exact absurd hv (by simp)
  · intro inp df0 metaFull df1 c1 c2 hload hlm hml hr hd hs
    have hkeyM : "Rendszam" ∈ (metaProj inp.tableChoice df0 metaFull).cols :=
      metaProj_key _ _ _ (load_meta_ok_key _ _ hlm)
    obtain ⟨lt, hlt⟩ := longTable_ok (metaProj inp.tableChoice df0 metaFull)
      (previewFilter inp.selected (dropnaValid (timeCols (elevCol c1 c2 df1))))
      (statsOf inp.useMean inp.useMin inp.useMax) hkeyM
    obtain ⟨wt, hwt⟩ := wideTable_ok inp.tableChoice
      (metaProj inp.tableChoice df0 metaFull)
      (dropnaValid (timeCols (elevCol c1 c2 df1)))
      (statsOf inp.useMean inp.useMin inp.useMax) hkeyM
    exact ⟨lt, wt, monthly_page_eq_ok inp df0 metaFull df1 c1 c2 lt wt
      hload hlm hml hr hd hs hlt hwt⟩

/-- C8 witness: the unparseable row `W3, "oops"` of the concrete
table, and the concrete invocation containing it still returning both
tables. -/
theorem c8_witness :
    (([("Rendszam", Val.str "W3"), ("Datum", Val.str "oops"),
        ("Talajvizallas", Val.num (-1)),
        ("vFkAllomas_TalajvizkutKutperemmag", Val.num 30)] : Row) ∈ tblA.rows ∧
      parseDatum (Row.get [("Rendszam", Val.str "W3"), ("Datum", Val.str "oops"),
        ("Talajvizallas", Val.num (-1)),
        ("vFkAllomas_TalajvizkutKutperemmag", Val.num 30)] "Datum") = none) ∧
    (∃ r2 ∈ (timeCols tblA).rows,
      r2.get "Datum" = .null ∧ r2.get "Year" = .null ∧
      r2.get "Month" = .null ∧ validRow r2 = false ∧
      r2 ∉ (dropnaValid (timeCols tblA)).rows) ∧
    (match monthly_page inpA with
      | .ok (.ok _ _) => true
      | _ => false) = true :=
  ⟨⟨by decide, by decide⟩,
    (c8_unparseable_excluded tblA).1
      [("Rendszam", Val.str "W3"), ("Datum", Val.str "oops"),
        ("Talajvizallas", Val.num (-1)),
        ("vFkAllomas_TalajvizkutKutperemmag", Val.num 30)]
      (by decide) (by decide),
    by decide⟩

/-! ## C9 — the metadata left join preserves the row count -/

theorem keyMatch_iff (k v : Val) :
    keyMatch k v = true ↔ (k ≠ .null ∧ k = v) := by
  cases k <;> simp [keyMatch]

theorem dedupOnAux_subset (key : String) :
    ∀ (n : ℕ) (l : List Row) (r : Row), r ∈ dedupOnAux key n l → r ∈ l := by
  intro n
  induction n with
  | zero => intro l r h; cases l <;> simp [dedupOnAux] at h
  | succ n ih =>
    intro l r h
    cases l with
    | nil => simp [dedupOnAux] at h
    | cons x xs =>
      simp only [dedupOnAux, List.mem_cons] at h
      rcases h with h | h
      · exact h ▸ List.mem_cons_self x xs
      · exact List.mem_cons_of_mem x (List.mem_of_mem_filter (ih _ _ h))

theorem dedupOnAux_keys_nodup (key : String) :
    ∀ (n : ℕ) (l : List Row), l.length ≤ n →
      ((dedupOnAux key n l).map (fun r => r.get key)).Nodup := by
  intro n
  induction n with
  | zero => intro l hl; cases l with
    | nil => simp [dedupOnAux]
    | cons x xs => exact absurd hl (by simp)
  | succ n ih =>
    intro l hl
    cases l with
    | nil => simp [dedupOnAux]
    | cons x xs =>
      simp only [dedupOnAux, List.map_cons, List.nodup_cons]
      constructor
      · intro hmem
        simp only [List.mem_map] at hmem
        obtain ⟨r2, hr2, hkey⟩ := hmem
        have hin := dedupOnAux_subset key n _ r2 hr2
        rw [List.mem_filter] at hin
        rw [decide_eq_true_eq] at hin
        exact hin.2 hkey
      · exact ih _ (le_trans (List.length_filter_le _ _)
          (Nat.succ_le_succ_iff.mp hl))

/-- After `drop_duplicates`, the key column has pairwise distinct
values. -/
theorem dedupOn_keys_nodup (key : String) (l : List Row) :
    ((dedupOn key l).map (fun r => r.get key)).Nodup :=
  dedupOnAux_keys_nodup key l.length l le_rfl

/-- `load_meta` success exposes the projected/deduplicated catalog. -/
theorem load_meta_ok_inv (raw metaFull : DF)
    (h : load_meta (.ok raw) = .ok metaFull) :
    metaFull.cols = raw.cols.filter (fun c => decide (c ∈ ALL_META_COLS)) ∧
    metaFull.rows = dedupOn "Rendszam"
      ((raw.select (raw.cols.filter (fun c => decide (c ∈ ALL_META_COLS)))).rows) := by
  unfold load_meta at h
  simp only at h
  split at h
  · cases h
    exact ⟨rfl, rfl⟩
  · exact absurd h (by simp)

/-- The catalog's key column stays pairwise distinct after `load_meta`. -/
theorem load_meta_keys_nodup (f : Except String DF) (metaFull : DF)
    (h : load_meta f = .ok metaFull) :
    (metaFull.rows.map (fun r => r.get "Rendszam")).Nodup := by
  cases f with
  | error e => exact absurd h (by simp [load_meta])
  | ok raw =>
    obtain ⟨_, hrows⟩ := load_meta_ok_inv raw metaFull h
    rw [hrows]
    exact dedupOn_keys_nodup _ _

/-- Projection (`DF.select`) keeps the key values when the key column is
selected. -/
theorem select_keys_eq (df : DF) (cs : List String) (h : "Rendszam" ∈ cs) :
    (df.select cs).rows.map (fun r => r.get "Rendszam") =
      df.rows.map (fun r => r.get "Rendszam") := by
  simp only [DF.select_rows, List.map_map]
  refine List.map_congr_left ?_
  intro r _
  simp only [Function.comp_apply]
  rw [Row.get_proj, if_pos h]

/-- The variant projection keeps the key values. -/
theorem metaProj_keys_eq (tc : TableChoice) (df0 metaFull : DF)
    (h : "Rendszam" ∈ metaFull.cols) :
    (metaProj tc df0 metaFull).rows.map (fun r => r.get "Rendszam") =
      metaFull.rows.map (fun r => r.get "Rendszam") := by
  unfold metaProj
  rw [select_keys_eq, select_keys_eq]
  · simp only [List.mem_filter, decide_eq_true_eq]
    exact ⟨metaColsNeeded_key tc, h⟩
  · simp only [DF.select_cols, List.mem_filter, decide_eq_true_eq]
    exact ⟨⟨metaColsNeeded_key tc, h⟩, by simp⟩

/-- With pairwise distinct right keys, at most one right row matches a
key value. -/
theorem matches_len_le_one_aux (k : Val) :
    ∀ l : List Row, (l.map (fun r => r.get "Rendszam")).Nodup →
      (l.filter (fun m => keyMatch k (m.get "Rendszam"))).length ≤ 1
  | [], _ => by simp
  | m :: ms, hnd => by
      simp only [List.map_cons, List.nodup_cons] at hnd
      by_cases hm : keyMatch k (m.get "Rendszam") = true
      · rw [List.filter_cons, if_pos hm]
        have hnil : ms.filter (fun m2 => keyMatch k (m2.get "Rendszam")) = [] := by
          rw [List.filter_eq_nil_iff]
          intro m2 hm2 hmatch
          obtain ⟨hk1, hk2⟩ := (keyMatch_iff _ _).mp hm
          obtain ⟨_, hk4⟩ := (keyMatch_iff _ _).mp hmatch
          exact hnd.1 (List.mem_map.mpr ⟨m2, hm2, hk4 ▸ hk2⟩)
        rw [hnil]
        simp
      · rw [List.filter_cons, if_neg hm]
        exact matches_len_le_one_aux k ms hnd.2

theorem matches_len_le_one (meta : DF) (k : Val)
    (hnd : (meta.rows.map (fun r => r.get "Rendszam")).Nodup) :
    (matchesOf meta k).length ≤ 1 :=
  matches_len_le_one_aux k meta.rows hnd

/-- With at most one match per key, the merge's row block for each left
row has exactly one row, so the join preserves the row count. -/
theorem joinRows_length (dfRows : List Row) (meta : DF)
    (h1 : ∀ k, (matchesOf meta k).length ≤ 1) :
    (joinRows dfRows meta).length = dfRows.length := by
  induction dfRows with
  | nil => rfl
  | cons r rs ih =>
    simp only [joinRows, List.flatMap_cons] at ih ⊢
    rw [List.length_append, ih, List.length_cons]
    have hone : (if (matchesOf meta (r.get "Rendszam")).isEmpty then [r]
        else (matchesOf meta (r.get "Rendszam")).map (fun m => r ++ m)).length = 1 := by
      cases hms : matchesOf meta (r.get "Rendszam") with
      | nil => simp
      | cons m tail =>
        have := h1 (r.get "Rendszam")
        rw [hms] at this
        simp only [List.length_cons] at this
        have htail : tail = [] := by
          cases tail with
          | nil => rfl
          | cons a b => simp at this
        subst htail
        simp
    omega

theorem mergeLeft_ok_inv (df meta out : DF) (h : mergeLeft df meta = .ok out) :
    out.cols = df.cols ++ meta.cols.filter (fun c => decide (c ≠ "Rendszam")) ∧
    out.rows = joinRows df.rows meta := by
  unfold mergeLeft at h
  split at h
  · cases h
    exact ⟨rfl, rfl⟩
  · exact absurd h (by simp)

/-- Metadata columns other than the key never collide with measurement
columns (the dupes drop). -/
theorem metaProj_dropped (tc : TableChoice) (df0 metaFull : DF) :
    ∀ c ∈ (metaProj tc df0 metaFull).cols, c ≠ "Rendszam" → c ∉ df0.cols := by
  intro c hc hne hin
  simp only [metaProj, DF.select_cols, List.mem_filter,
    decide_eq_true_eq] at hc
  exact hc.2 ⟨hin, hne⟩

/-- C9, confirmed: because the catalog is deduplicated on the well
identifier first (first occurrence kept), the left join of line 108
emits exactly one row per measurement row — the row count is
preserved — and a measurement row that matches no metadata record
passes through unchanged, reading null in every metadata column. -/
theorem c9_left_join_preserves_rows (f : Except String DF) (tc : TableChoice)
    (df0 metaFull out : DF)
    (hlm : load_meta f = .ok metaFull)
    (hml : mergeLeft df0 (metaProj tc df0 metaFull) = .ok out) :
    out.rows.length = df0.rows.length ∧
    ∀ r ∈ df0.rows, (∀ p ∈ r, p.1 ∈ df0.cols) →
      matchesOf (metaProj tc df0 metaFull) (r.get "Rendszam") = [] →
      r ∈ out.rows ∧
      ∀ c ∈ (metaProj tc df0 metaFull).cols, c ≠ "Rendszam" →
        r.get c = .null := by
  have hkey : "Rendszam" ∈ metaFull.cols := load_meta_ok_key _ _ hlm
  have hnd : ((metaProj tc df0 metaFull).rows.map (fun r => r.get "Rendszam")).Nodup := by
    rw [metaProj_keys_eq tc df0 metaFull hkey]
    exact load_meta_keys_nodup f metaFull hlm
  obtain ⟨hcols, hrows⟩ := mergeLeft_ok_inv _ _ _ hml
  constructor
  · rw [hrows]
    exact joinRows_length _ _ (fun k => matches_len_le_one _ k hnd)
  · intro r hr hwf hempty
    constructor
    · rw [hrows]
      unfold joinRows
      rw [List.mem_flatMap]
      refine ⟨r, hr, ?_⟩
      simp only [hempty]
      simp
    · intro c hc hcne
      have hnot : c ∉ df0.cols := metaProj_dropped tc df0 metaFull c hc hcne
      exact Row.get_of_not_has r c (Row.has_false_of_keys r c df0.cols hwf hnot)

/-- The catalog `csvA` after `_load_meta`. -/
def metaFullA : DF :=
  ⟨["Rendszam", "vmoNev"],
   [[("Rendszam", .str "W1"), ("vmoNev", .str "A")],
    [("Rendszam", .str "W9"), ("vmoNev", .str "metaonly")]]⟩

/-- C9 witness: on the concrete table and catalog the merged frame has
exactly as many rows as the measurement table. -/
theorem c9_witness :
    (load_meta (.ok csvA) = .ok metaFullA) ∧
    (match mergeLeft tblA (metaProj .talajviz tblA metaFullA) with
      | .ok out => out.rows.length = tblA.rows.length
      | .error _ => False) := by
  have hlm : load_meta (.ok csvA) = .ok metaFullA := by decide
  refine ⟨hlm, ?_⟩
  have hb : (match mergeLeft tblA (metaProj .talajviz tblA metaFullA) with
    | .ok _ => true
    | .error _ => false) = true := by decide
  rcases hml : mergeLeft tblA (metaProj .talajviz tblA metaFullA) with e | out
  · rw [hml] at hb
    simp at hb
  · exact (c9_left_join_preserves_rows (.ok csvA) .talajviz tblA metaFullA out
      hlm hml).1

/-! ## C10 — reference elevation resolved on the enriched frame -/

theorem col1name_mem_needed (tc : TableChoice) :
    col1name tc ∈ metaColsNeeded tc := by
  cases tc <;> decide

theorem col1name_mem_all (tc : TableChoice) :
    col1name tc ∈ ALL_META_COLS := by
  cases tc <;> decide

theorem col1name_ne_key (tc : TableChoice) : col1name tc ≠ "Rendszam" := by
  cases tc <;> decide

/-- C10, confirmed: the reference-elevation check of line 120 runs on
the post-merge frame, so when the measurement table lacks the variant's
peremmag column but the fetched catalog has it, the enriched frame
carries it, resolution fails only if the water-level field is missing,
and on every matched row the reference operand read by the derivation
is the metadata record's value. -/
theorem c10_reference_from_metadata (inp : PageInput) (df0 raw metaFull df1 : DF)
    (_hload : inp.loadTable = .ok df0)
    (hfetch : inp.fetchMeta = .ok raw)
    (hlm : load_meta inp.fetchMeta = .ok metaFull)
    (hnot : col1name inp.tableChoice ∉ df0.cols)
    (hcsv : col1name inp.tableChoice ∈ raw.cols)
    (hml : mergeLeft df0 (metaProj inp.tableChoice df0 metaFull) = .ok df1) :
    col1name inp.tableChoice ∈ df1.cols ∧
    (resolveCols inp.tableChoice df1 = none ↔
      ("Talajvízállás" ∉ df1.cols ∧ "Talajvizallas" ∉ df1.cols)) ∧
    ∀ r ∈ df0.rows, (∀ p ∈ r, p.1 ∈ df0.cols) →
      ∀ m ∈ matchesOf (metaProj inp.tableChoice df0 metaFull) (r.get "Rendszam"),
        Row.get (r ++ m) (col1name inp.tableChoice) =
          m.get (col1name inp.tableChoice) ∧
        (r ++ m) ∈ df1.rows := by
  rw [hfetch] at hlm
  obtain ⟨hmcols, _⟩ := load_meta_ok_inv raw metaFull hlm
  have hc1mf : col1name inp.tableChoice ∈ metaFull.cols := by
    rw [hmcols, List.mem_filter, decide_eq_true_eq]
    exact ⟨hcsv, col1name_mem_all _⟩
  have hc1meta : col1name inp.tableChoice ∈
      (metaProj inp.tableChoice df0 metaFull).cols := by
    unfold metaProj
    simp only [DF.select_cols, List.mem_filter, decide_eq_true_eq]
    refine ⟨⟨col1name_mem_needed _, by simpa using hc1mf⟩, ?_⟩
    intro hcon
    exact hnot hcon.1
  obtain ⟨hcols, hrows⟩ := mergeLeft_ok_inv _ _ _ hml
  have hc1df1 : col1name inp.tableChoice ∈ df1.cols := by
    rw [hcols, List.mem_append]
    right
    rw [List.mem_filter, decide_eq_true_eq]
    exact ⟨hc1meta, col1name_ne_key _⟩
  refine ⟨hc1df1, ?_, ?_⟩
  · unfold resolveCols
    by_cases h2 : "Talajvízállás" ∈ df1.cols
    · simp [h2, hc1df1]
    · by_cases h2' : "Talajvizallas" ∈ df1.cols
      · simp [h2, h2', hc1df1]
      · simp [h2, h2']
  · intro r hr hwf m hm
    constructor
    · rw [Row.get_append, Row.has_false_of_keys r _ df0.cols hwf hnot]
      simp
    · rw [hrows]
      unfold joinRows
      rw [List.mem_flatMap]
      refine ⟨r, hr, ?_⟩
      have hne : (matchesOf (metaProj inp.tableChoice df0 metaFull)
          (r.get "Rendszam")).isEmpty = false := by
        cases hms : matchesOf (metaProj inp.tableChoice df0 metaFull)
            (r.get "Rendszam") with
        | nil => rw [hms] at hm; simp at hm
        | cons a b => rfl
      simp only [hne, Bool.false_eq_true, if_false, List.mem_map]
      exact ⟨m, hm, rfl⟩

/-- Catalog CSV that does supply the shallow variant's peremmag
column. -/
def csvB : DF :=
  ⟨["Rendszam", "vFkAllomas_TalajvizkutKutperemmag", "vmoNev"],
   [[("Rendszam", .str "W1"),
     ("vFkAllomas_TalajvizkutKutperemmag", .num 10), ("vmoNev", .str "A")]]⟩

/-- The catalog `csvB` after `_load_meta`. -/
def metaFullB : DF :=
  ⟨["Rendszam", "vFkAllomas_TalajvizkutKutperemmag", "vmoNev"],
   [[("Rendszam", .str "W1"),
     ("vFkAllomas_TalajvizkutKutperemmag", .num 10), ("vmoNev", .str "A")]]⟩

/-- Invocation whose measurement table lacks the peremmag column while
the catalog supplies it. -/
def inpC10 : PageInput := ⟨.talajviz, .ok tblC5b, .ok csvB, [], true, false, false⟩

/-- C10 witness: on the concrete frames, the enriched column set
carries the catalog's peremmag column and resolution succeeds. -/
theorem c10_witness :
    (inpC10.loadTable = .ok tblC5b ∧ inpC10.fetchMeta = .ok csvB ∧
      load_meta inpC10.fetchMeta = .ok metaFullB ∧
      col1name inpC10.tableChoice ∉ tblC5b.cols ∧
      col1name inpC10.tableChoice ∈ csvB.cols) ∧
    (match mergeLeft tblC5b (metaProj inpC10.tableChoice tblC5b metaFullB) with
      | .ok df1 => col1name inpC10.tableChoice ∈ df1.cols ∧
          (resolveCols inpC10.tableChoice df1 = none ↔
            ("Talajvízállás" ∉ df1.cols ∧ "Talajvizallas" ∉ df1.cols))
      | .error _ => False) := by
  refine ⟨⟨rfl, rfl, by decide, by decide, by decide⟩, ?_⟩
  have hb : (match mergeLeft tblC5b (metaProj inpC10.tableChoice tblC5b metaFullB) with
    | .ok _ => true
    | .error _ => false) = true := by decide
  rcases hml : mergeLeft tblC5b (metaProj inpC10.tableChoice tblC5b metaFullB)
      with e | df1
  · rw [hml] at hb
    simp at hb
  · have h := c10_reference_from_metadata inpC10 tblC5b csvB metaFullB df1
      rfl rfl (by decide) (by decide) (by decide) hml
    exact ⟨h.1, h.2.1⟩

/-! ## C2 — the wide table's well set -/

theorem mergeRight_ok_inv (meta df out : DF) (h : mergeRight meta df = .ok out) :
    out.cols = meta.cols ++ df.cols.filter (fun c => decide (c ≠ "Rendszam")) ∧
    out.rows = joinRows df.rows meta := by
  unfold mergeRight at h
  split at h
  · cases h
    exact ⟨rfl, rfl⟩
  · exact absurd h (by simp)

theorem key_mem_orderedCols (wc mn st : List String) :
    "Rendszam" ∈ orderedCols wc mn st := by
  unfold orderedCols
  simp

/-- Every row the pivot builds carries the key pair in front. -/
theorem wideCore_rows_has_key (aggAll : DF) (stats : List String) :
    ∀ r ∈ (wideCore aggAll stats).rows, r.has "Rendszam" = true := by
  intro r hr
  simp only [wideCore, List.mem_map] at hr
  obtain ⟨v, _, rfl⟩ := hr
  simp [Row.has]

theorem join_block_keys (r : Row) (meta : DF) (hhas : r.has "Rendszam" = true) :
    ∀ x ∈ (if (matchesOf meta (r.get "Rendszam")).isEmpty then [r]
        else (matchesOf meta (r.get "Rendszam")).map (fun m => r ++ m)),
      x.get "Rendszam" = r.get "Rendszam" := by
  intro x hx
  split at hx
  · simp only [List.mem_singleton] at hx
    subst hx
    rfl
  · simp only [List.mem_map] at hx
    obtain ⟨m, _, rfl⟩ := hx
    rw [Row.get_append, if_pos hhas]

/-- The merge changes no key value and drops no key value: membership
in the key column is preserved. -/
theorem joinRows_keys_mem (rows : List Row) (meta : DF)
    (hhas : ∀ r ∈ rows, r.has "Rendszam" = true) (v : Val) :
    v ∈ (joinRows rows meta).map (fun r => r.get "Rendszam") ↔
      v ∈ rows.map (fun r => r.get "Rendszam") := by
  unfold joinRows
  simp only [List.mem_map, List.mem_flatMap]
  constructor
  · rintro ⟨x, ⟨r, hr, hx⟩, rfl⟩
    exact ⟨r, hr, (join_block_keys r meta (hhas r hr) x hx).symm⟩
  · rintro ⟨r, hr, rfl⟩
    have hne : (if (matchesOf meta (r.get "Rendszam")).isEmpty then [r]
        else (matchesOf meta (r.get "Rendszam")).map (fun m => r ++ m)) ≠ [] := by
      split
      · simp
      · rename_i hemp
        simp only [List.isEmpty_eq_true] at hemp
        simp only [ne_eq, List.map_eq_nil_iff]
        exact hemp
    obtain ⟨x, hx⟩ := List.exists_mem_of_ne_nil _ hne
    exact ⟨x, ⟨r, hr, hx⟩, join_block_keys r meta (hhas r hr) x hx⟩

/-- The pivot's well set is the aggregate's well set. -/
theorem wideCore_keys_mem (aggAll : DF) (stats : List String) (v : Val) :
    v ∈ (wideCore aggAll stats).rows.map (fun r => r.get "Rendszam") ↔
      v ∈ aggAll.rows.map (fun r => r.get "Rendszam") := by
  unfold wideCore
  simp only [List.map_map]
  have hfun : ∀ u : Val,
      ((fun r : Row => r.get "Rendszam") ∘ (fun u2 : Val =>
        ("Rendszam", u2) :: (stats.flatMap (fun s =>
          (((aggAll.rows.map (fun r =>
            (r.get "Year", r.get "Month"))).dedup).insertionSort pairLe).map
            (fun g => (token g.1 g.2 s,
              match aggAll.rows.find? (fun r =>
                decide (r.get "Rendszam" = u2 ∧ r.get "Year" = g.1 ∧
                  r.get "Month" = g.2)) with
              | some r => r.get s
              | none => .null)))))) u = u := by
    intro u
    simp [Row.get_cons]
  rw [List.map_congr_left (fun u _ => hfun u),
    show (fun u : Val => u) = (id : Val → Val) from rfl, List.map_id]
  rw [(List.perm_insertionSort Val.le _).mem_iff, List.mem_dedup]

/-- The aggregate's well set is the (groupby-filtered) input rows' well
set. -/
theorem groupbyAgg_keys_mem (vc : String) (rows : List Row)
    (stats : List String) (v : Val) :
    v ∈ (groupbyAgg vc rows stats).rows.map (fun r => r.get "Rendszam") ↔
      v ∈ (rows.filter (fun r => ! keyHasNull (groupKey r))).map
        (fun r => r.get "Rendszam") := by
  unfold groupbyAgg
  simp only [List.map_map, List.mem_map]
  constructor
  · rintro ⟨k, hk, rfl⟩
    have hk2 : k ∈ (rows.filter (fun r => ! keyHasNull (groupKey r))).map groupKey := by
      rw [← List.mem_dedup, ← (List.perm_insertionSort tripleLe _).mem_iff]
      exact hk
    obtain ⟨r, hr, rfl⟩ := List.mem_map.mp hk2
    refine ⟨r, hr, ?_⟩
    simp [Row.get_cons, groupKey]
  · rintro ⟨r, hr, rfl⟩
    refine ⟨groupKey r, ?_, ?_⟩
    · rw [(List.perm_insertionSort tripleLe _).mem_iff, List.mem_dedup]
      exact List.mem_map_of_mem groupKey hr
    · simp [Row.get_cons, groupKey]

/-- After the null-drop, the groupby's own NaN-key filter drops
nothing. -/
theorem dropna_groupfilter_eq (df' : DF) :
    (dropnaValid df').rows.filter (fun r => ! keyHasNull (groupKey r)) =
      (dropnaValid df').rows := by
  rw [List.filter_eq_self]
  intro r hr
  simp only [dropnaValid, List.mem_filter] at hr
  have hv := hr.2
  unfold validRow at hv
  simp only [Bool.and_eq_true, decide_eq_true_eq] at hv
  unfold keyHasNull groupKey
  simp [hv.1.1.1, hv.1.1.2, hv.1.2]

/-- What a successful `wideTable` run is. -/
theorem wideTable_ok_inv (tc : TableChoice) (meta dfv : DF)
    (stats : List String) (w : DF) (hk : "Rendszam" ∈ meta.cols)
    (hw : wideTable tc meta dfv stats = .ok w) :
    w = (DF.mk
      (meta.cols ++
        (wideCore (groupbyAgg "vizkutfenekmagasag" dfv.rows stats) stats).cols.filter
          (fun c => decide (c ≠ "Rendszam")))
      (joinRows
        (wideCore (groupbyAgg "vizkutfenekmagasag" dfv.rows stats) stats).rows
        meta)).select
      (orderedCols
        (meta.cols ++
          (wideCore (groupbyAgg "vizkutfenekmagasag" dfv.rows stats) stats).cols.filter
            (fun c => decide (c ≠ "Rendszam")))
        (metaColsNeeded tc) stats) := by
  unfold wideTable at hw
  rw [mergeRight_ok _ _ hk (wideCore_key _ _)] at hw
  simp only [Except.ok.injEq] at hw
  exact hw.symm

/-- The wide table's well set equals the valid derived rows' well set. -/
theorem wideTable_keys_iff (tc : TableChoice) (meta df' : DF)
    (stats : List String) (w : DF) (hk : "Rendszam" ∈ meta.cols)
    (hw : wideTable tc meta (dropnaValid df') stats = .ok w) (v : Val) :
    v ∈ w.rows.map (fun r => r.get "Rendszam") ↔
      v ∈ (dropnaValid df').rows.map (fun r => r.get "Rendszam") := by
  rw [wideTable_ok_inv _ _ _ _ _ hk hw]
  rw [select_keys_eq _ _ (key_mem_orderedCols _ _ _)]
  show v ∈ (joinRows _ meta).map (fun r => r.get "Rendszam") ↔ _
  rw [joinRows_keys_mem _ _ (wideCore_rows_has_key _ _) v]
  rw [wideCore_keys_mem]
  rw [groupbyAgg_keys_mem]
  rw [dropna_groupfilter_eq]

/-- C2, confirmed: the wide table's well identifiers are exactly the
identifiers of the full valid derived row set; the preview well
selection changes only the long table — any selection yields the very
same wide table — so metadata-only wells (absent from measurements)
never appear in it. -/
theorem c2_wide_well_set (inp : PageInput) (l w : DF)
    (hok : monthly_page inp = .ok (.ok l w)) :
    (∃ df0 metaFull df1 c1 c2,
      inp.loadTable = .ok df0 ∧
      load_meta inp.fetchMeta = .ok metaFull ∧
      mergeLeft df0 (metaProj inp.tableChoice df0 metaFull) = .ok df1 ∧
      resolveCols inp.tableChoice df1 = some (c1, c2) ∧
      ∀ v, (v ∈ w.rows.map (fun r => r.get "Rendszam") ↔
        v ∈ (dropnaValid (timeCols (elevCol c1 c2 df1))).rows.map
          (fun r => r.get "Rendszam"))) ∧
    ∀ sel2, ∃ l2, monthly_page {inp with selected := sel2} = .ok (.ok l2 w) := by
  obtain ⟨df0, metaFull, df1, c1, c2, hload, hlm, hml, hr, hd, hs, hlong, hwide⟩ :=
    monthly_page_ok_inv inp l w hok
  have hkeyM : "Rendszam" ∈ (metaProj inp.tableChoice df0 metaFull).cols :=
    metaProj_key _ _ _ (load_meta_ok_key _ _ hlm)
  constructor
  · exact ⟨df0, metaFull, df1, c1, c2, hload, hlm, hml, hr,
      fun v => wideTable_keys_iff _ _ _ _ _ hkeyM hwide v⟩
  · intro sel2
    obtain ⟨l2, hl2⟩ := longTable_ok (metaProj inp.tableChoice df0 metaFull)
      (previewFilter sel2 (dropnaValid (timeCols (elevCol c1 c2 df1))))
      (statsOf inp.useMean inp.useMin inp.useMax) hkeyM
    exact ⟨l2, monthly_page_eq_ok _ df0 metaFull df1 c1 c2 l2 w
      hload hlm hml hr hd hs hl2 hwide⟩

/-- C2 witness: on the concrete run (which carries the metadata-only
well W9 in the catalog), the wide table's wells are exactly the valid
measured wells, and an arbitrary preview selection leaves the wide
table unchanged. -/
theorem c2_witness :
    (match monthly_page inpA with
      | .ok (.ok _ w) =>
          w.rows.map (fun r => r.get "Rendszam") =
            [Val.str "W1", Val.str "W2"] ∧
          Val.str "W9" ∉ w.rows.map (fun r => r.get "Rendszam") ∧
          ∃ l2, monthly_page {inpA with selected := [Val.str "W2"]} =
            .ok (.ok l2 w)
      | _ => False) := by
  have hb : (match monthly_page inpA with
    | .ok (.ok _ _) => true
    | _ => false) = true := by decide
  rcases hma : monthly_page inpA with e | pr
  · rw [hma] at hb
    simp at hb
  · rcases pr with msg | msg | ⟨long, wide⟩
    · rw [hma] at hb
      simp at hb
    · rw [hma] at hb
      simp at hb
    · refine ⟨?_, ?_, (c2_wide_well_set inpA long wide hma).2 [Val.str "W2"]⟩
      · rw [show wide = (match monthly_page inpA with
          | .ok (.ok _ w) => w
          | _ => ⟨[], []⟩) from by rw [hma]]
        decide
      · rw [show wide = (match monthly_page inpA with
          | .ok (.ok _ w) => w
          | _ => ⟨[], []⟩) from by rw [hma]]
        decide

/-! ## C3 — wide-form column structure -/

/-- The component after the last underscore (`c.rsplit("_", 1)[-1]`),
used to tell statistic columns from metadata columns. -/
def lastComp (c : String) : String :=
  ⟨(c.data.reverse.takeWhile (fun ch => decide (ch ≠ '_'))).reverse⟩

theorem dropWhile_all_append {p : Char → Bool} :
    ∀ (l1 : List Char) {y : Char} {l2 : List Char}, (∀ x ∈ l1, p x = true) →
      p y = false → List.dropWhile p (l1 ++ y :: l2) = y :: l2 := by
  intro l1
  induction l1 with
  | nil =>
    intro y l2 _ hy
    simp [List.dropWhile_cons, hy]
  | cons a l ih =>
    intro y l2 hall hy
    have ha : p a = true := hall a (by simp)
    simp only [List.cons_append, List.dropWhile_cons, ha, if_true]
    exact ih (fun x hx => hall x (by simp [hx])) hy

theorem takeWhile_all_append {p : Char → Bool} :
    ∀ (l1 : List Char) {y : Char} {l2 : List Char}, (∀ x ∈ l1, p x = true) →
      p y = false → List.takeWhile p (l1 ++ y :: l2) = l1 := by
  intro l1
  induction l1 with
  | nil =>
    intro y l2 _ hy
    simp [List.takeWhile_cons, hy]
  | cons a l ih =>
    intro y l2 hall hy
    have ha : p a = true := hall a (by simp)
    simp only [List.cons_append, List.takeWhile_cons, ha, if_true]
    rw [ih (fun x hx => hall x (by simp [hx])) hy]

theorem append_und_data (a s : String) :
    (a ++ "_" ++ s).data = (a.data ++ ['_']) ++ s.data := by
  rw [String.data_append, String.data_append]

theorem rsplitBase_append (a s : String) (hs : '_' ∉ s.data) :
    rsplitBase (a ++ "_" ++ s) = a := by
  unfold rsplitBase rsplitBaseL
  rw [append_und_data]
  rw [if_pos (by simp)]
  rw [List.reverse_append, List.reverse_append]
  simp only [List.reverse_cons, List.reverse_nil, List.nil_append,
    List.singleton_append]
  rw [dropWhile_all_append s.data.reverse
    (fun x hx => by
      rw [decide_eq_true_eq]
      intro hc
      exact hs (by simpa [hc] using List.mem_reverse.mp hx))
    (by simp)]
  simp only [List.drop_succ_cons, List.drop_zero, List.reverse_reverse]

theorem lastComp_append (a s : String) (hs : '_' ∉ s.data) :
    lastComp (a ++ "_" ++ s) = s := by
  unfold lastComp
  rw [append_und_data]
  rw [List.reverse_append, List.reverse_append]
  simp only [List.reverse_cons, List.reverse_nil, List.nil_append,
    List.singleton_append]
  rw [takeWhile_all_append s.data.reverse
    (fun x hx => by
      rw [decide_eq_true_eq]
      intro hc
      exact hs (by simpa [hc] using List.mem_reverse.mp hx))
    (by simp)]
  rw [List.reverse_reverse]

/-- The canonical token is never the key column name. -/
theorem token_ne_key (y m : Val) (s : String) : token y m s ≠ "Rendszam" := by
  intro hc
  have h1 : '_' ∈ (token y m s).data := by
    unfold token
    rw [append_und_data]
    simp
  rw [hc] at h1
  exact absurd h1 (by decide)

/-- Splitting a canonical token recovers its year-month base. -/
theorem rsplitBase_token (y m : Val) (s : String) (hs : '_' ∉ s.data) :
    rsplitBase (token y m s) = pyIntStr y ++ "_" ++ pad2 m :=
  rsplitBase_append (pyIntStr y ++ "_" ++ pad2 m) s hs

/-- The last component of a canonical token is its statistic name. -/
theorem lastComp_token (y m : Val) (s : String) (hs : '_' ∉ s.data) :
    lastComp (token y m s) = s :=
  lastComp_append (pyIntStr y ++ "_" ++ pad2 m) s hs

/-- Selected statistic names carry no underscore. -/
theorem statsOf_no_und (m n x : Bool) :
    ∀ s ∈ statsOf m n x, '_' ∉ s.data := by
  intro s hmem
  rcases statsOf_mem m n x s hmem with h | h | h <;> subst h <;> decide

/-- The whitelist is the key followed by its tail. -/
theorem metaColsNeeded_eq (tc : TableChoice) :
    metaColsNeeded tc = "Rendszam" :: (metaColsNeeded tc).drop 1 := by
  cases tc <;> rfl

/-- The key appears only at the head of the whitelist. -/
theorem key_not_mem_needed_tail (tc : TableChoice) :
    "Rendszam" ∉ (metaColsNeeded tc).drop 1 := by
  cases tc <;> decide

/-- No whitelist entry ends in a statistic name component. -/
theorem needed_tail_lastComp (tc : TableChoice) :
    ∀ c ∈ (metaColsNeeded tc).drop 1,
      lastComp c ≠ "mean" ∧ lastComp c ≠ "min" ∧ lastComp c ≠ "max" := by
  cases tc <;> decide

/-- flatMap respects pointwise equality of the functions. -/
theorem flatMap_congr_mem {α β : Type} (l : List α) (f g : α → List β)
    (h : ∀ x ∈ l, f x = g x) : l.flatMap f = l.flatMap g := by
  induction l with
  | nil => rfl
  | cons a l ih =>
    simp only [List.flatMap_cons]
    rw [h a (by simp), ih (fun x hx => h x (by simp [hx]))]

theorem mem_sortStrs {b : String} {l : List String} :
    b ∈ sortStrs l ↔ b ∈ l :=
  (List.perm_insertionSort strLe l).mem_iff

theorem sortStrs_nodup (l : List String) (h : l.Nodup) :
    (sortStrs l).Nodup :=
  ((List.perm_insertionSort strLe l).nodup_iff).mpr h

theorem sortStrs_sorted (l : List String) :
    List.Sorted strLe (sortStrs l) :=
  List.sorted_insertionSort strLe l

/-- Statistic names from the fixed three carry no underscore. -/
theorem stats_no_und (stats : List String)
    (hstats : ∀ s ∈ stats, s = "mean" ∨ s = "min" ∨ s = "max") :
    ∀ s ∈ stats, '_' ∉ s.data := by
  intro s hsmem
  rcases hstats s hsmem with rfl | rfl | rfl <;> decide

/-- No canonical token is the key column name (list form). -/
theorem token_list_ne_key (groups : List (Val × Val)) (stats : List String) :
    ∀ t ∈ stats.flatMap (fun s => groups.map (fun g => token g.1 g.2 s)),
      t ≠ "Rendszam" := by
  intro t ht
  rw [List.mem_flatMap] at ht
  obtain ⟨s, _, ht⟩ := ht
  rw [List.mem_map] at ht
  obtain ⟨g, _, rfl⟩ := ht
  exact token_ne_key _ _ _

/-- Structure of the deterministic column ordering over a metadata
block followed by canonical statistic tokens. -/
theorem orderedCols_structure (tc : TableChoice) (metaCols : List String)
    (groups : List (Val × Val)) (stats : List String)
    (hstats : ∀ s ∈ stats, s = "mean" ∨ s = "min" ∨ s = "max")
    (hmeta : ∀ c ∈ metaCols, c ∈ metaColsNeeded tc) :
    ∃ ts : List String,
      orderedCols
          (metaCols ++ stats.flatMap (fun s => groups.map
            (fun g => token g.1 g.2 s)))
          (metaColsNeeded tc) stats =
        "Rendszam" ::
          (((metaColsNeeded tc).drop 1).filter (fun c => decide
            (c ∈ metaCols ++ stats.flatMap (fun s => groups.map
              (fun g => token g.1 g.2 s)))) ++
          ts.flatMap (fun t => stats.map (fun s => t ++ "_" ++ s))) ∧
      List.Pairwise (fun a b => strLe a b ∧ a ≠ b) ts ∧
      (∀ c ∈ (metaColsNeeded tc).drop 1,
        (c ∈ orderedCols
          (metaCols ++ stats.flatMap (fun s => groups.map
            (fun g => token g.1 g.2 s)))
          (metaColsNeeded tc) stats ↔
         c ∈ metaCols ++ stats.flatMap (fun s => groups.map
            (fun g => token g.1 g.2 s)))) ∧
      (∀ t ∈ ts, ∃ g ∈ groups, t = pyIntStr g.1 ++ "_" ++ pad2 g.2) := by
  set T := stats.flatMap (fun s => groups.map (fun g => token g.1 g.2 s))
    with hT
  set wideCols := metaCols ++ T with hwideCols
  set ord0 := "Rendszam" :: ((metaColsNeeded tc).drop 1).filter
    (fun c => decide (c ∈ wideCols)) with hord0
  have hT_not_tail : ∀ t ∈ T, t ∉ (metaColsNeeded tc).drop 1 := by
    intro t ht htail
    rw [hT, List.mem_flatMap] at ht
    obtain ⟨s, hsmem, ht⟩ := ht
    rw [List.mem_map] at ht
    obtain ⟨g, _, rfl⟩ := ht
    have hnu : '_' ∉ s.data := stats_no_und stats hstats s hsmem
    have hlc := lastComp_token g.1 g.2 s hnu
    obtain ⟨h1, h2, h3⟩ := needed_tail_lastComp tc _ htail
    rcases hstats s hsmem with rfl | rfl | rfl
    · exact h1 hlc
    · exact h2 hlc
    · exact h3 hlc
  have hmeta_ord0 : ∀ c ∈ metaCols, c ∈ ord0 := by
    intro c hc
    rw [hord0]
    by_cases hck : c = "Rendszam"
    · rw [hck]
      simp
    · rw [List.mem_cons]
      right
      rw [List.mem_filter, decide_eq_true_eq]
      refine ⟨?_, List.mem_append_left _ hc⟩
      have := hmeta c hc
      rw [metaColsNeeded_eq tc, List.mem_cons] at this
      exact this.resolve_left hck
  have hT_ord0 : ∀ t ∈ T, t ∉ ord0 := by
    intro t ht hmem
    rw [hord0, List.mem_cons] at hmem
    rcases hmem with hmem | hmem
    · exact token_list_ne_key groups stats t ht hmem
    · rw [List.mem_filter] at hmem
      exact hT_not_tail t ht hmem.1
  have hfilterout : wideCols.filter (fun c => decide (c ∉ ord0)) = T := by
    rw [hwideCols, List.filter_append]
    have h1 : metaCols.filter (fun c => decide (c ∉ ord0)) = [] := by
      rw [List.filter_eq_nil_iff]
      intro c hc
      simp only [decide_eq_true_eq, Decidable.not_not]
      exact hmeta_ord0 c hc
    have h2 : T.filter (fun c => decide (c ∉ ord0)) = T := by
      rw [List.filter_eq_self]
      intro t ht
      rw [decide_eq_true_eq]
      exact hT_ord0 t ht
    rw [h1, h2, List.nil_append]
  have hblocks_mem : ∀ col ∈ (sortStrs ((T.map rsplitBase).dedup)).flatMap
      (fun b => stats.map (fun s => b ++ "_" ++ s)), col ∈ wideCols := by
    intro col hcol
    rw [List.mem_flatMap] at hcol
    obtain ⟨b, hb, hcol⟩ := hcol
    rw [List.mem_map] at hcol
    obtain ⟨s, hsmem, rfl⟩ := hcol
    have hb2 : b ∈ (T.map rsplitBase).dedup := mem_sortStrs.mp hb
    rw [List.mem_dedup, List.mem_map] at hb2
    obtain ⟨t, ht, rfl⟩ := hb2
    rw [hT, List.mem_flatMap] at ht
    obtain ⟨s2, hs2, ht⟩ := ht
    rw [List.mem_map] at ht
    obtain ⟨g, hg, rfl⟩ := ht
    rw [rsplitBase_token g.1 g.2 s2 (stats_no_und stats hstats s2 hs2)]
    rw [hwideCols]
    refine List.mem_append_right _ ?_
    rw [hT, List.mem_flatMap]
    refine ⟨s, hsmem, ?_⟩
    rw [List.mem_map]
    exact ⟨g, hg, rfl⟩
  have hmain : orderedCols wideCols (metaColsNeeded tc) stats =
      "Rendszam" ::
        (((metaColsNeeded tc).drop 1).filter (fun c => decide (c ∈ wideCols)) ++
         (sortStrs ((T.map rsplitBase).dedup)).flatMap
           (fun t => stats.map (fun s => t ++ "_" ++ s))) := by
    unfold orderedCols
    simp only []
    rw [show ("Rendszam" :: ((metaColsNeeded tc).drop 1).filter
        (fun c => decide (c ∈ wideCols))) = ord0 from hord0.symm]
    rw [hfilterout]
    have hfeq : (sortStrs ((T.map rsplitBase).dedup)).flatMap
        (fun b => (stats.map (fun s => b ++ "_" ++ s)).filter
          (fun col => decide (col ∈ wideCols))) =
        (sortStrs ((T.map rsplitBase).dedup)).flatMap
          (fun b => stats.map (fun s => b ++ "_" ++ s)) := by
      refine flatMap_congr_mem _ _ _ ?_
      intro b hb
      rw [List.filter_eq_self]
      intro col hcol
      rw [decide_eq_true_eq]
      refine hblocks_mem col ?_
      rw [List.mem_flatMap]
      exact ⟨b, hb, hcol⟩
    rw [hfeq, hord0, List.cons_append]
  refine ⟨sortStrs ((T.map rsplitBase).dedup), hmain, ?_, ?_, ?_⟩
  · exact (sortStrs_sorted _).and
      (sortStrs_nodup _ (List.nodup_dedup _))
  · intro c hc
    constructor
    · intro hmem
      rw [hmain, List.mem_cons] at hmem
      rcases hmem with hmem | hmem
      · exact absurd (hmem ▸ hc) (key_not_mem_needed_tail tc)
      · rw [List.mem_append] at hmem
        rcases hmem with hmem | hmem
        · rw [List.mem_filter, decide_eq_true_eq] at hmem
          exact hmem.2
        · exact hblocks_mem c hmem
    · intro hmem
      rw [hmain, List.mem_cons]
      right
      rw [List.mem_append]
      left
      rw [List.mem_filter, decide_eq_true_eq]
      exact ⟨hc, hmem⟩
  · intro t ht
    have ht2 : t ∈ (T.map rsplitBase).dedup := mem_sortStrs.mp ht
    rw [List.mem_dedup, List.mem_map] at ht2
    obtain ⟨t2, ht2b, rfl⟩ := ht2
    rw [hT, List.mem_flatMap] at ht2b
    obtain ⟨s2, hs2, ht2b⟩ := ht2b
    rw [List.mem_map] at ht2b
    obtain ⟨g, hg, rfl⟩ := ht2b
    exact ⟨g, hg, rsplitBase_token g.1 g.2 s2 (stats_no_und stats hstats s2 hs2)⟩

/-- C3, confirmed: every successful run's wide table has columns: the
well identifier; then the variant's whitelisted metadata fields that
made it into the frame, in whitelist order; then one block per distinct
`year_month` token — tokens strictly increasing in the code-point
string order — each block holding the selected statistics in the fixed
mean, min, max order, named `token_statistic`; and the ordering is a
pure function of the inputs, so a second identical run yields identical
columns. -/
theorem c3_wide_columns (inp : PageInput) (l w : DF)
    (hok : monthly_page inp = .ok (.ok l w)) :
    ∃ ms ts : List String,
      w.cols = "Rendszam" :: (ms ++
        ts.flatMap (fun t => (statsOf inp.useMean inp.useMin inp.useMax).map
          (fun s => t ++ "_" ++ s))) ∧
      ms = ((metaColsNeeded inp.tableChoice).drop 1).filter
        (fun c => decide (c ∈ w.cols)) ∧
      List.Pairwise (fun a b => strLe a b ∧ a ≠ b) ts ∧
      (∀ t ∈ ts, ∃ y m : Val, t = pyIntStr y ++ "_" ++ pad2 m) ∧
      (∀ l2 w2, monthly_page inp = .ok (.ok l2 w2) → w2.cols = w.cols) := by
  obtain ⟨df0, metaFull, df1, c1, c2, hload, hlm, hml, hr, hd, hs, hlong, hwide⟩ :=
    monthly_page_ok_inv inp l w hok
  have hkeyM : "Rendszam" ∈ (metaProj inp.tableChoice df0 metaFull).cols :=
    metaProj_key _ _ _ (load_meta_ok_key _ _ hlm)
  have hwinv := wideTable_ok_inv inp.tableChoice
    (metaProj inp.tableChoice df0 metaFull)
    (dropnaValid (timeCols (elevCol c1 c2 df1)))
    (statsOf inp.useMean inp.useMin inp.useMax) w hkeyM hwide
  set stats := statsOf inp.useMean inp.useMin inp.useMax with hstats
  set meta := metaProj inp.tableChoice df0 metaFull with hmeta
  set aggAll := groupbyAgg "vizkutfenekmagasag"
    (dropnaValid (timeCols (elevCol c1 c2 df1))).rows stats with haggAll
  set G := ((aggAll.rows.map (fun r =>
    (r.get "Year", r.get "Month"))).dedup).insertionSort pairLe with hG
  set T := stats.flatMap (fun s => G.map (fun g => token g.1 g.2 s)) with hT
  have hwccols : (wideCore aggAll stats).cols = "Rendszam" :: T := rfl
  have hfT : ("Rendszam" :: T).filter (fun c => decide (c ≠ "Rendszam")) = T := by
    rw [List.filter_cons]
    rw [if_neg (by simp)]
    rw [List.filter_eq_self]
    intro t ht
    rw [decide_eq_true_eq]
    exact token_list_ne_key G stats t ht
  have hwcols : w.cols = orderedCols (meta.cols ++ T)
      (metaColsNeeded inp.tableChoice) stats := by
    rw [hwinv]
    rw [DF.select_cols]
    rw [hwccols, hfT]
  obtain ⟨ts, hmain, hpair, hmemiff, htok⟩ := orderedCols_structure inp.tableChoice
    meta.cols G stats (statsOf_mem _ _ _) (metaProj_cols_sub _ _ _)
  refine ⟨((metaColsNeeded inp.tableChoice).drop 1).filter
    (fun c => decide (c ∈ meta.cols ++ T)), ts, ?_, ?_, hpair, ?_, ?_⟩
  · rw [hwcols, hmain]
  · refine List.filter_congr ?_
    intro c hc
    rw [decide_eq_decide]
    rw [hwcols]
    exact (hmemiff c hc).symm
  · intro t ht
    obtain ⟨g, _, hgeq⟩ := htok t ht
    exact ⟨g.1, g.2, hgeq⟩
  · intro l2 w2 h2
    rw [hok] at h2
    simp only [Except.ok.injEq, PageResult.ok.injEq] at h2
    rw [← h2.2]

/-- C3 witness: the theorem at the concrete regular run, whose wide
columns are the identifier, the surviving metadata field, then the two
month tokens in lexicographic order with the three statistics each. -/
theorem c3_witness :
    ((match monthly_page inpA with
      | .ok (.ok _ w) => w.cols
      | _ => []) =
      ["Rendszam", "vmoNev", "2021_01_mean", "2021_01_min", "2021_01_max",
        "2021_02_mean", "2021_02_min", "2021_02_max"]) ∧
    (match monthly_page inpA with
      | .ok (.ok _ w) => ∃ ms ts : List String,
          w.cols = "Rendszam" :: (ms ++
            ts.flatMap (fun t =>
              (statsOf inpA.useMean inpA.useMin inpA.useMax).map
                (fun s => t ++ "_" ++ s))) ∧
          ms = ((metaColsNeeded inpA.tableChoice).drop 1).filter
            (fun c => decide (c ∈ w.cols)) ∧
          List.Pairwise (fun a b => strLe a b ∧ a ≠ b) ts ∧
          (∀ t ∈ ts, ∃ y m : Val, t = pyIntStr y ++ "_" ++ pad2 m) ∧
          (∀ l2 w2, monthly_page inpA = .ok (.ok l2 w2) → w2.cols = w.cols)
      | _ => False) := by
  refine ⟨by decide, ?_⟩
  have hb : (match monthly_page inpA with
    | .ok (.ok _ _) => true
    | _ => false) = true := by decide
  rcases hma : monthly_page inpA with e | pr
  · rw [hma] at hb
    simp at hb
  · rcases pr with msg | msg | ⟨long, wide⟩
    · rw [hma] at hb
      simp at hb
    · rw [hma] at hb
      simp at hb
    · obtain ⟨ms, ts, h1, h2, h3, h4, h5⟩ := c3_wide_columns inpA long wide hma
      exact ⟨ms, ts, h1, h2, h3, h4,
        fun l2 w2 hh => h5 l2 w2 (by rw [hma]; exact hh)⟩

end Watertable
